import Mathlib

/-
Shallow embedding of the `SsrCookieService` cookie codec from
`src/esm2022/lib/ssr-cookie.service.mjs`.  The source file contains two
concatenated build artifacts of the same service: version 17.3.9 (lines
1-309, with separate `setClientCookie` / `setServerCookie` sinks and
map-based `check` / `get`) and version 18.1.4 (lines 310-620, with a
unified `set` and a regex-based client path for `check` / `get`).  Both
are modelled, in namespaces `V17` and `V18`; the parsing and
reconciliation code is byte-for-byte identical in the two copies, so it
is modelled once at top level.

JavaScript strings are modelled as `List Char` (Unicode scalar values;
lone UTF-16 surrogates are out of scope).  JavaScript `undefined`
flowing into a string position is modelled by `Option` plus the
ECMAScript `ToString` coercion (`jsToString`), under which `undefined`
becomes the literal string `"undefined"`.  `encodeURIComponent` /
`decodeURIComponent` are modelled in full: percent-escapes are decoded
to bytes and the byte groups are decoded as strict UTF-8 (rejecting
overlong forms, surrogates and out-of-range code points, exactly as
ECMAScript prescribes); a decoding failure is an `Option.none`, which
`safeDecodeURIComponent` turns into the raw-input fallback of the
source's `try/catch`.
-/

abbrev Str := List Char

abbrev CMap := List (Str × Str)

/-- ECMAScript ToString applied to a value that is either a string or
`undefined`: `undefined` coerces to the literal string `"undefined"`.
This is what `safeDecodeURIComponent(cookieValue)` receives when a
cookie segment has no `=` and array destructuring leaves
`cookieValue === undefined`. -/
def jsToString : Option Str → Str
  | some s => s
  | none => ("undefined").data

/-- Decimal digits and upper/lower hex letters, as accepted by the URI
percent-escape grammar. -/
def isHexDigit (c : Char) : Bool :=
  let n := c.toNat
  (48 ≤ n && n ≤ 57) || (65 ≤ n && n ≤ 70) || (97 ≤ n && n ≤ 102)

/-- Numeric value of a hex digit. -/
def hexVal (c : Char) : Nat :=
  let n := c.toNat
  if 48 ≤ n && n ≤ 57 then n - 48
  else if 65 ≤ n && n ≤ 70 then n - 55
  else n - 87

/-- Uppercase hex digit, as emitted by `encodeURIComponent`. -/
def hexDigU (n : Nat) : Char :=
  if n < 10 then Char.ofNat (48 + n) else Char.ofNat (55 + n)

/-- Continuation byte of a UTF-8 sequence (`10xxxxxx`). -/
def isContByte (b : Nat) : Bool := 128 ≤ b && b < 192

/-- One token of a percent-encoded string: either a plain character that
passes through `decodeURIComponent` unchanged, or the byte denoted by a
`%XX` escape. -/
inductive Tok where
  | ch (c : Char)
  | byte (b : Nat)
deriving DecidableEq

/-- First phase of `decodeURIComponent`: read the string left to right,
turning each `%XX` escape into a byte token and keeping other characters
as character tokens.  A `%` not followed by two hex digits is a
`URIError` (`none`). -/
def tokenize : Str → Option (List Tok)
  | [] => some []
  | c :: r =>
    if c = '%' then
      match r with
      | h1 :: h2 :: r2 =>
        if isHexDigit h1 && isHexDigit h2 then
          (tokenize r2).map (fun ts => Tok.byte (hexVal h1 * 16 + hexVal h2) :: ts)
        else none
      | _ => none
    else (tokenize r).map (fun ts => Tok.ch c :: ts)

/-- One strict-UTF-8 sequence headed by the byte `b`: consume the
continuation bytes (which must themselves be byte tokens, i.e. come from
`%XX` escapes) from the token stream and yield the code point and the
remaining stream.  Overlong encodings (`C0`/`C1` leads, `E0`/`F0` with a
low first continuation), surrogates (`ED` with a high first
continuation) and values above U+10FFFF (`F4` high, `F5`+) are rejected,
exactly the ECMAScript `decodeURIComponent` rules. -/
def byteSeq (b : Nat) (r : List Tok) : Option (Nat × List Tok) :=
  if b < 128 then some (b, r)
  else if b < 194 then none
  else if b < 224 then
    match r with
    | Tok.byte b1 :: r1 =>
      if isContByte b1 then some ((b - 192) * 64 + (b1 - 128), r1) else none
    | _ => none
  else if b < 240 then
    match r with
    | Tok.byte b1 :: Tok.byte b2 :: r1 =>
      if isContByte b1 && isContByte b2 &&
          (decide (b ≠ 224) || decide (160 ≤ b1)) &&
          (decide (b ≠ 237) || decide (b1 < 160)) then
        some ((((b - 224) * 64 + (b1 - 128)) * 64 + (b2 - 128)), r1)
      else none
    | _ => none
  else if b < 245 then
    match r with
    | Tok.byte b1 :: Tok.byte b2 :: Tok.byte b3 :: r1 =>
      if isContByte b1 && isContByte b2 && isContByte b3 &&
          (decide (b ≠ 240) || decide (144 ≤ b1)) &&
          (decide (b ≠ 244) || decide (b1 < 144)) then
        some (((((b - 240) * 64 + (b1 - 128)) * 64 + (b2 - 128)) * 64 + (b3 - 128)), r1)
      else none
    | _ => none
  else none

/-- Second phase of `decodeURIComponent`, with explicit fuel so the
recursion is structural (a continuation sequence consumes tokens, so the
stream length bounds the number of steps; `tokensDecode` supplies that
bound, making the `0, _ :: _` case unreachable). -/
def tdFuel : Nat → List Tok → Option Str
  | _, [] => some []
  | 0, _ :: _ => none
  | fuel + 1, Tok.ch c :: r => (tdFuel fuel r).map (fun l => c :: l)
  | fuel + 1, Tok.byte b :: r =>
    match byteSeq b r with
    | some (cp, r1) => (tdFuel fuel r1).map (fun l => Char.ofNat cp :: l)
    | none => none

/-- Second phase of `decodeURIComponent`: decode byte-token runs as
strict UTF-8. -/
def tokensDecode (ts : List Tok) : Option Str := tdFuel ts.length ts

/-- Model of `decodeURIComponent`: `none` is a thrown `URIError`. -/
def percentDecode (s : Str) : Option Str := (tokenize s).bind tokensDecode

/-- Model of the static `safeDecodeURIComponent` (source lines 40-48):
on decode failure the raw input is returned unchanged. -/
def safeDecodeURIComponent (s : Str) : Str :=
  match percentDecode s with
  | some t => t
  | none => s

/-- Characters that `encodeURIComponent` leaves unescaped:
`A-Z a-z 0-9 - _ . ! ~ * ' ( )`. -/
def unreservedURIChar (c : Char) : Bool :=
  let n := c.toNat
  (65 ≤ n && n ≤ 90) || (97 ≤ n && n ≤ 122) || (48 ≤ n && n ≤ 57) ||
    n = 45 || n = 95 || n = 46 || n = 33 || n = 126 || n = 42 || n = 39 || n = 40 || n = 41

/-- UTF-8 bytes of a Unicode scalar value. -/
def utf8Bytes (n : Nat) : List Nat :=
  if n < 128 then [n]
  else if n < 2048 then [192 + n / 64, 128 + n % 64]
  else if n < 65536 then [224 + n / 4096, 128 + n / 64 % 64, 128 + n % 64]
  else [240 + n / 262144, 128 + n / 4096 % 64, 128 + n / 64 % 64, 128 + n % 64]

/-- Percent-escapes of a byte list, uppercase hex as JS emits. -/
def escBytes : List Nat → Str
  | [] => []
  | b :: r => '%' :: hexDigU (b / 16) :: hexDigU (b % 16) :: escBytes r

/-- Encoding of one character under `encodeURIComponent`. -/
def encChar (c : Char) : Str :=
  if unreservedURIChar c then [c] else escBytes (utf8Bytes c.toNat)

/-- Model of `encodeURIComponent` (total here: lone surrogates, the only
throwing inputs, are not representable in `List Char`). -/
def encodeURIComponent : Str → Str
  | [] => []
  | c :: r => encChar c ++ encodeURIComponent r

/-- JavaScript `String.prototype.split` with a single-character
separator: splits on every occurrence; the empty string yields `[""]`. -/
def jsSplit (sep : Char) : Str → List Str
  | [] => [[]]
  | c :: r =>
    match jsSplit sep r with
    | [] => [[]]
    | s :: rest => if c = sep then [] :: s :: rest else (c :: s) :: rest

/-- First element of a split result (a JS `split` never returns an empty
array, so the `[]` case is unreachable). -/
def headOrNil : List Str → Str
  | [] => []
  | s :: _ => s

/-- Second element of an array, `undefined` (`none`) when absent — the
`cookieValue` of `let [cookieName, cookieValue] = seg.split('=')`. -/
def second? : List Str → Option Str
  | _ :: s :: _ => some s
  | _ => none

/-- The name-side cleanup `cookieName.replace(/^ +/, '')`: strip leading
spaces (only U+0020, exactly as the regex says). -/
def dropLeadingSpaces (s : Str) : Str := s.dropWhile (fun c => c = ' ')

/-- JS `Map.set`: an existing key is updated in place, a new key is
appended. -/
def mapSet : CMap → Str → Str → CMap
  | [], k, v => [(k, v)]
  | (k0, v0) :: r, k, v => if k0 = k then (k0, v) :: r else (k0, v0) :: mapSet r k v

/-- JS `Map.get`, `undefined` as `none`. -/
def mapGet : CMap → Str → Option Str
  | [], _ => none
  | (k0, v0) :: r, k => if k0 = k then some v0 else mapGet r k

/-- JS `Map.has`. -/
def mapHas (m : CMap) (k : Str) : Bool := (mapGet m k).isSome

/-- Processing of one `;`-separated segment inside `cookieStringToMap`
(source lines 65-70): split on every `=`, take the first two pieces as
name and value (the value is `undefined` when there is no `=`), strip
leading spaces from the name, percent-decode both with fallback, insert. -/
def parseSeg (m : CMap) (seg : Str) : CMap :=
  mapSet m
    (safeDecodeURIComponent (dropLeadingSpaces (headOrNil (jsSplit '=' seg))))
    (safeDecodeURIComponent (jsToString (second? (jsSplit '=' seg))))

/-- Model of the static `cookieStringToMap` (source lines 60-72) on a
string input.  The guard is `cookieString?.length < 1`. -/
def cookieStringToMap (s : Str) : CMap :=
  if s.length < 1 then [] else (jsSplit ';' s).foldl parseSeg []

/-- Model of `cookieStringToMap` on its full nullable input type.
For `null`/`undefined` the guard `cookieString?.length < 1` evaluates
`undefined < 1`, which is `false` in JavaScript, so execution reaches
`cookieString.split(';')` and throws a `TypeError`: modelled as
`Except.error ()`. -/
def cookieStringToMapJs : Option Str → Except Unit CMap
  | none => Except.error ()
  | some s => Except.ok (cookieStringToMap s)

/-- The `Set-Cookie` value read from the response: Express may hand back
a single string or an array of strings. -/
inductive RespVal where
  | one (s : Str)
  | many (l : List Str)
deriving DecidableEq

/-- Normalization in `getCombinedCookies` (source lines 92-95):
`this.response?.get('Set-Cookie') || []` followed by the
`Array.isArray` wrapping.  An absent response or header, or a falsy
empty-string value, becomes the empty list. -/
def normalizeSetCookie : Option RespVal → List Str
  | none => []
  | some (RespVal.one s) => if s = [] then [] else [s]
  | some (RespVal.many l) => l

/-- The request side of `getCombinedCookies` (source line 91):
`this.request?.headers.cookie || ''`. -/
def reqHeaderOrEmpty : Option Str → Str
  | none => []
  | some h => if h = [] then [] else h

/-- Merging of one response `Set-Cookie` entry into the working map
(source lines 98-104): take the part before the first `;`, split it on
every `=`, and only when the raw name is non-empty insert the decoded
name/value pair. -/
def mergeOne (m : CMap) (e : Str) : CMap :=
  let parts := jsSplit '=' (headOrNil (jsSplit ';' e))
  if headOrNil parts ≠ [] then
    mapSet m
      (safeDecodeURIComponent (headOrNil parts))
      (safeDecodeURIComponent (jsToString (second? parts)))
  else m

/-- Server branch of `getCombinedCookies` (source lines 87-106): parse
the request cookie header, then fold the response's accumulated
`Set-Cookie` entries over it. -/
def getCombinedCookiesServer (req : Option Str) (resp : Option RespVal) : CMap :=
  (normalizeSetCookie resp).foldl mergeOne (cookieStringToMap (reqHeaderOrEmpty req))

/-- Client branch of `getCombinedCookies`: just parse `document.cookie`. -/
def getCombinedCookiesClient (doc : Str) : CMap := cookieStringToMap doc

/-- The `expires` slot of the options object.  In JS it may hold a
number of days, a `Date`, or — after the legacy-positional repack is fed
an options object in the third slot together with a truthy later
positional argument — a plain object; `obj` stands for that last shape
(truthy, neither a number nor a `Date`). -/
inductive JsExpires where
  | num (d : Int)
  | date (t : Int)
  | obj
deriving DecidableEq

/-- The caller-facing attributes object of `set` (all fields optional,
absent = JS `undefined`). -/
structure CookieOptions where
  expires : Option JsExpires := none
  path : Option Str := none
  domain : Option Str := none
  secure : Option Bool := none
  sameSite : Option Str := none
  partitioned : Option Bool := none
deriving DecidableEq

/-- The structured per-cookie attribute record handed to the Express
response (`expressOptions` in V17, `outputOptions` in V18).  `expires`
holds an absolute `Date` after numeric day counts are converted (or the
passed-through plain object). -/
structure ExpressOptions where
  expires : Option JsExpires := none
  path : Option Str := none
  domain : Option Str := none
  secure : Option Bool := none
  sameSite : Option Str := none
  partitioned : Option Bool := none
deriving DecidableEq

/-- JS truthiness of an optional string (empty string is falsy). -/
def optStrTruthy : Option Str → Bool
  | some s => decide (s ≠ [])
  | none => false

/-- JS truthiness of the `expires` field: the number `0` is falsy,
`Date` objects and plain objects are truthy. -/
def expiresTruthy : Option JsExpires → Bool
  | some (JsExpires.num d) => decide (d ≠ 0)
  | some (JsExpires.date _) => true
  | some JsExpires.obj => true
  | none => false

/-- ASCII lowercasing, for `options.sameSite.toLowerCase()` (the values
in play are ASCII tokens such as `Lax`). -/
def toLowerStr (s : Str) : Str := s.map Char.toLower

/-- Placeholder rendering of `Date.prototype.toUTCString`: an injective
concrete rendering of the timestamp.  No claim inspects the formatted
date text, only which timestamp is carried. -/
def dateToUTCString (t : Int) : Str := (toString t).data

/-- Milliseconds in a day: the source's `1000 * 60 * 60 * 24`. -/
def msPerDay : Int := 1000 * 60 * 60 * 24

/-- Third positional argument of `set` (`expiresOrOptions`): a number of
days, a `Date`, an options object, or `undefined`. -/
inductive JsArg3 where
  | num (d : Int)
  | date (t : Int)
  | opts (o : CookieOptions)
  | undef
deriving DecidableEq

/-- The legacy-positional detection predicate of both `set` overload
resolvers (source lines 230 and 491):
`typeof expiresOrOptions === 'number' || expiresOrOptions instanceof Date
 || path || domain || secure || sameSite`. -/
def legacyDetect (arg3 : JsArg3) (path domain : Option Str) (secure : Option Bool)
    (sameSite : Option Str) : Bool :=
  (match arg3 with
    | JsArg3.num _ => true
    | JsArg3.date _ => true
    | _ => false)
  || optStrTruthy path || optStrTruthy domain || decide (secure = some true) || optStrTruthy sameSite

/-- The `optionsBody` built by the legacy repack (source lines 231-238
and 492-499): `expiresOrOptions` lands in `expires` verbatim, `sameSite`
defaults to `Lax`. -/
def repack (arg3 : JsArg3) (path domain : Option Str) (secure : Option Bool)
    (sameSite : Option Str) (partitioned : Option Bool) : CookieOptions :=
  { expires :=
      match arg3 with
      | JsArg3.num d => some (JsExpires.num d)
      | JsArg3.date t => some (JsExpires.date t)
      | JsArg3.opts _ => some JsExpires.obj
      | JsArg3.undef => none
    path := path
    domain := domain
    secure := secure
    sameSite := some (if optStrTruthy sameSite then sameSite.getD [] else ("Lax").data)
    partitioned := partitioned }

/-- The options object a dispatched sink receives: the third argument
when it is an object, the `{}` default parameter when it is
`undefined`.  Numbers and `Date`s never reach the sinks (they always
trigger the repack), so those shapes also map to `{}` here. -/
def optionsOfArg3 : JsArg3 → CookieOptions
  | JsArg3.opts o => o
  | _ => {}

/-- Result of one `set`: a cookie string written to `document.cookie`,
or a `(name, value, structured-attributes)` triple handed to
`response.cookie`. -/
inductive SinkOut where
  | client (s : Str)
  | server (name value : Str) (o : ExpressOptions)
deriving DecidableEq

namespace V17

/-- The `expires` clause of `setClientCookie` (source lines 121-129):
`Except.error ()` is the `TypeError` thrown by
`options.expires.toUTCString()` when a plain object sits in the
`expires` slot, and a falsy numeric `0` emits nothing. -/
def expiresClause? (options : CookieOptions) (now : Int) : Except Unit Str :=
  match options.expires with
  | some (JsExpires.num d) =>
    if d ≠ 0 then
      Except.ok (("expires=").data ++ dateToUTCString (now + d * msPerDay) ++ [';'])
    else Except.ok []
  | some (JsExpires.date t) =>
    Except.ok (("expires=").data ++ dateToUTCString t ++ [';'])
  | some JsExpires.obj => Except.error ()
  | none => Except.ok []

/-- The `path` clause of `setClientCookie` (source lines 130-132). -/
def pathClause (options : CookieOptions) : Str :=
  if optStrTruthy options.path then ("path=").data ++ options.path.getD [] ++ [';'] else []

/-- The `domain` clause of `setClientCookie` (source lines 133-135). -/
def domainClause (options : CookieOptions) : Str :=
  if optStrTruthy options.domain then ("domain=").data ++ options.domain.getD [] ++ [';'] else []

/-- The `secure` flag after the `secure === false && sameSite === 'None'`
correction of source lines 136-140, which mutates `options.secure`
before the `if (options.secure)` emission check. -/
def secureAfterForce (options : CookieOptions) : Option Bool :=
  if options.secure = some false ∧ options.sameSite = some (("None").data) then some true
  else options.secure

/-- The `secure` clause of `setClientCookie` (source lines 141-143). -/
def secureClause (options : CookieOptions) : Str :=
  if secureAfterForce options = some true then ("secure;").data else []

/-- The `sameSite` clause of `setClientCookie` (source lines 144-147):
the value defaults to `Lax` and is emitted in its original case. -/
def sameSiteClause (options : CookieOptions) : Str :=
  ("sameSite=").data ++
    (if optStrTruthy options.sameSite then options.sameSite.getD [] else ("Lax").data) ++ [';']

/-- The `Partitioned` clause of `setClientCookie` (source lines
148-150). -/
def partitionedClause (options : CookieOptions) : Str :=
  if options.partitioned = some true then ("Partitioned;").data else []

/-- Model of `setClientCookie` (source lines 119-152).  The returned
string is the value assigned to `document.cookie` (the source appends
the clauses in this order with `+=`). -/
def setClientCookie (name value : Str) (options : CookieOptions) (now : Int) :
    Except Unit Str :=
  match expiresClause? options now with
  | Except.error e => Except.error e
  | Except.ok expiresClause =>
    Except.ok
      (encodeURIComponent name ++ '=' :: (encodeURIComponent value ++ ';' ::
        (expiresClause ++ (pathClause options ++ (domainClause options ++ (secureClause options ++
          (sameSiteClause options ++ partitionedClause options)))))))

/-- Model of `setServerCookie` (source lines 164-190): the
`expressOptions` record handed to `response.cookie`.  Note there is no
`secure === false && sameSite === 'None'` correction on this path, and
`secure`/`sameSite` fields are copied only when truthy. -/
def setServerCookie (_name _value : Str) (options : CookieOptions) (now : Int) :
    ExpressOptions :=
  { expires :=
      match options.expires with
      | some (JsExpires.num d) =>
        if d ≠ 0 then some (JsExpires.date (now + d * msPerDay)) else none
      | some (JsExpires.date t) => some (JsExpires.date t)
      | some JsExpires.obj => some JsExpires.obj
      | none => none
    path := if optStrTruthy options.path then options.path else none
    domain := if optStrTruthy options.domain then options.domain else none
    secure := if options.secure = some true then some true else none
    sameSite :=
      match options.sameSite with
      | some s => if s ≠ [] then some (toLowerStr s) else none
      | none => none
    partitioned := if options.partitioned = some true then some true else none }

/-- The context dispatch at the end of `set` (source lines 242-247). -/
def setDispatch (name value : Str) (arg3 : JsArg3) (documentIsAccessible : Bool)
    (now : Int) : Except Unit SinkOut :=
  if documentIsAccessible then
    (setClientCookie name value (optionsOfArg3 arg3) now).map SinkOut.client
  else
    Except.ok (SinkOut.server name value (setServerCookie name value (optionsOfArg3 arg3) now))

/-- Model of the overloaded `set` (source lines 229-248).  The source
recurses once after repacking positional arguments; the recursion is
embedded with explicit fuel (running out of fuel would model divergence,
which `v17_repack_resolves` shows cannot happen past one repack). -/
def setFuel : Nat → Str → Str → JsArg3 → Option Str → Option Str → Option Bool →
    Option Str → Option Bool → Bool → Int → Except Unit SinkOut
  | 0, _, _, _, _, _, _, _, _, _, _ => Except.error ()
  | fuel + 1, name, value, arg3, path, domain, secure, sameSite, partitioned, ctx, now =>
    if legacyDetect arg3 path domain secure sameSite then
      setFuel fuel name value (JsArg3.opts (repack arg3 path domain secure sameSite partitioned))
        none none none none none ctx now
    else setDispatch name value arg3 ctx now

/-- Public `set` with enough fuel for the single repack the source ever
performs. -/
def set (name value : Str) (arg3 : JsArg3) (path domain : Option Str) (secure : Option Bool)
    (sameSite : Option Str) (partitioned : Option Bool) (ctx : Bool) (now : Int) :
    Except Unit SinkOut :=
  setFuel 2 name value arg3 path domain secure sameSite partitioned ctx now

/-- Model of V17 `check` (source lines 200-203): pure map containment on
the combined cookies, in both contexts. -/
def checkClient (doc name : Str) : Bool := mapHas (getCombinedCookiesClient doc) name

/-- Model of V17 server-side `check`. -/
def checkServer (req : Option Str) (resp : Option RespVal) (name : Str) : Bool :=
  mapHas (getCombinedCookiesServer req resp) name

/-- Model of V17 `get` (source lines 213-216): `allCookies.get(name) || ''`. -/
def getClient (doc name : Str) : Str := (mapGet (getCombinedCookiesClient doc) name).getD []

/-- Model of V17 server-side `get`. -/
def getServer (req : Option Str) (resp : Option RespVal) (name : Str) : Str :=
  (mapGet (getCombinedCookiesServer req resp) name).getD []

end V17

namespace V18

/-- The `outputOptions` record built by the unified V18 `set` (source
lines 503-534), shared by both sinks.  The `secure === false &&
sameSite === 'None'` correction (lines 520-524) mutates `options.secure`
before the copy, and `sameSite` is always present and lowercased
(line 531). -/
def buildOutput (options : CookieOptions) (now : Int) : ExpressOptions :=
  { expires :=
      match options.expires with
      | some (JsExpires.num d) =>
        if d ≠ 0 then some (JsExpires.date (now + d * msPerDay)) else none
      | some (JsExpires.date t) => some (JsExpires.date t)
      | some JsExpires.obj => some JsExpires.obj
      | none => none
    path := if optStrTruthy options.path then options.path else none
    domain := if optStrTruthy options.domain then options.domain else none
    secure :=
      if (if options.secure = some false ∧ options.sameSite = some (("None").data)
          then some true else options.secure) = some true
      then some true else none
    sameSite :=
      some (toLowerStr (if optStrTruthy options.sameSite then options.sameSite.getD []
        else ("Lax").data))
    partitioned := if options.partitioned = some true then some true else none }

/-- The `expires` clause of the V18 client string (source lines
536-553: the fields of `outputOptions` are walked in insertion order,
`Date` values render as `key=<UTC date>;`, `true` booleans as `key;`,
strings as `key=value;`; a plain object in the `expires` slot matches
none of the typeof checks and is silently skipped). -/
def ooExpiresClause (oo : ExpressOptions) : Str :=
  match oo.expires with
  | some (JsExpires.date t) => ("expires=").data ++ dateToUTCString t ++ [';']
  | _ => []

/-- The `path` clause of the V18 client string. -/
def ooPathClause (oo : ExpressOptions) : Str :=
  match oo.path with
  | some p => ("path=").data ++ p ++ [';']
  | none => []

/-- The `domain` clause of the V18 client string. -/
def ooDomainClause (oo : ExpressOptions) : Str :=
  match oo.domain with
  | some d => ("domain=").data ++ d ++ [';']
  | none => []

/-- The `secure` clause of the V18 client string (bare token for a true
boolean). -/
def ooSecureClause (oo : ExpressOptions) : Str :=
  if oo.secure = some true then ("secure;").data else []

/-- The `sameSite` clause of the V18 client string (the record value,
which `buildOutput` has already lowercased). -/
def ooSameSiteClause (oo : ExpressOptions) : Str :=
  match oo.sameSite with
  | some s => ("sameSite=").data ++ s ++ [';']
  | none => []

/-- The `partitioned` clause of the V18 client string (bare token,
lowercase field name). -/
def ooPartitionedClause (oo : ExpressOptions) : Str :=
  if oo.partitioned = some true then ("partitioned;").data else []

/-- The full V18 client string: fields in insertion order. -/
def clientStringOf (name value : Str) (oo : ExpressOptions) : Str :=
  encodeURIComponent name ++ '=' :: (encodeURIComponent value ++ ';' ::
    (ooExpiresClause oo ++ (ooPathClause oo ++ (ooDomainClause oo ++ (ooSecureClause oo ++
      (ooSameSiteClause oo ++ ooPartitionedClause oo))))))

/-- The structured (non-repacking) path of V18 `set` (source lines
503-558): build `outputOptions` once, then write to the context's sink.
`const options = expiresOrOptions ? expiresOrOptions : {}` resolves to
the object or to `{}` for `undefined`. -/
def setStructured (name value : Str) (arg3 : JsArg3) (ctx : Bool) (now : Int) : SinkOut :=
  let options := optionsOfArg3 arg3
  let oo := buildOutput options now
  if ctx then SinkOut.client (clientStringOf name value oo)
  else SinkOut.server name value oo

/-- Model of the overloaded V18 `set` (source lines 490-559), with the
same fuel treatment of the one-shot repack recursion as `V17.setFuel`. -/
def setFuel : Nat → Str → Str → JsArg3 → Option Str → Option Str → Option Bool →
    Option Str → Option Bool → Bool → Int → Option SinkOut
  | 0, _, _, _, _, _, _, _, _, _, _ => none
  | fuel + 1, name, value, arg3, path, domain, secure, sameSite, partitioned, ctx, now =>
    if legacyDetect arg3 path domain secure sameSite then
      setFuel fuel name value (JsArg3.opts (repack arg3 path domain secure sameSite partitioned))
        none none none none none ctx now
    else some (setStructured name value arg3 ctx now)

/-- Public V18 `set` with enough fuel for the single repack. -/
def set (name value : Str) (arg3 : JsArg3) (path domain : Option Str) (secure : Option Bool)
    (sameSite : Option Str) (partitioned : Option Bool) (ctx : Bool) (now : Int) :
    Option SinkOut :=
  setFuel 2 name value arg3 path domain secure sameSite partitioned ctx now

end V18

/-- JavaScript `\s` (whitespace class): space, `\t\n\v\f\r`, NBSP,
Ogham space mark, the U+2000-200A range, line/paragraph separators,
narrow NBSP, medium mathematical space, ideographic space and BOM. -/
def isJsWs (c : Char) : Bool :=
  let n := c.toNat
  n = 32 || (9 ≤ n && n ≤ 13) || n = 160 || n = 5760 || (8192 ≤ n && n ≤ 8202) ||
    n = 8232 || n = 8233 || n = 8239 || n = 8287 || n = 12288 || n = 65279

/-- JavaScript line terminators, which `.` does not match without the
`s` flag: LF, CR, LS, PS. -/
def isLineTerm (c : Char) : Bool :=
  let n := c.toNat
  n = 10 || n = 13 || n = 8232 || n = 8233

/-- Tail of the cookie regex after the captured name, `(.*?)(?:;|$)`:
from the current position, a lazy run of non-line-terminator characters
must reach a `;` or the end of the string. -/
def tailOk : Str → Bool
  | [] => true
  | c :: r => if c = ';' then true else if isLineTerm c then false else tailOk r

/-- The group-1 capture of `(.*?)(?:;|$)` at the current position: the
lazy-shortest run up to a `;` or the end, failing on a line terminator. -/
def captureFrom : Str → Option Str
  | [] => some []
  | c :: r =>
    if c = ';' then some []
    else if isLineTerm c then none
    else (captureFrom r).map (fun l => c :: l)

/-- Literal name followed by `=` followed by a matching tail, anchored
at the current position (used for both regex alternatives).
`getCookieRegExp` escapes the regex metacharacters that can occur in an
`encodeURIComponent`-encoded name, so the name matches literally. -/
def matchNameAt : Str → Str → Bool
  | [], s =>
    match s with
    | c :: t => if c = '=' then tailOk t else false
    | [] => false
  | _ :: _, [] => false
  | c :: cs, d :: ds => if c = d then matchNameAt cs ds else false

/-- Capture-producing variant of `matchNameAt`. -/
def matchCapAt : Str → Str → Option Str
  | [], s =>
    match s with
    | c :: t => if c = '=' then captureFrom t else none
    | [] => none
  | _ :: _, [] => none
  | c :: cs, d :: ds => if c = d then matchCapAt cs ds else none

/-- The `;\s*name=...` alternative after its `;` has been consumed:
some (possibly empty) run of whitespace, then the literal name.  For a
boolean test the backtracking order of `\s*` is irrelevant, so this is a
plain disjunction. -/
def afterSemi (name : Str) : Str → Bool
  | [] => matchNameAt name []
  | c :: r => matchNameAt name (c :: r) || (if isJsWs c then afterSemi name r else false)

/-- Greedy-with-backtracking `\s*` for the capture-producing path: the
engine consumes as much whitespace as possible first. -/
def afterSemiExec (name : Str) : Str → Option Str
  | [] => matchCapAt name []
  | c :: r =>
    if isJsWs c then
      match afterSemiExec name r with
      | some x => some x
      | none => matchCapAt name (c :: r)
    else matchCapAt name (c :: r)

/-- Scan for start positions of the `;\s*name` alternative (a match at
position `i > 0` must begin with the `;`). -/
def regexTestAux (name : Str) : Str → Bool
  | [] => false
  | c :: r => (if c = ';' then afterSemi name r else false) || regexTestAux name r

/-- Model of `getCookieRegExp(name).test(s)` for a literally-matching
name: either the `^name` alternative at position 0, or `;\s*name`
anywhere. -/
def jsCookieRegexTest (name s : Str) : Bool :=
  matchNameAt name s || regexTestAux name s

/-- Leftmost-match scan for the capture-producing path. -/
def regexExecAux (name : Str) : Str → Option Str
  | [] => none
  | c :: r =>
    match (if c = ';' then afterSemiExec name r else none) with
    | some x => some x
    | none => regexExecAux name r

/-- Model of `getCookieRegExp(name).exec(s)[1]`: group 1 of the leftmost
match (at each position the `^name` alternative is tried before the
`;\s*name` one, matching the alternation order). -/
def jsCookieRegexExec (name s : Str) : Option Str :=
  match matchCapAt name s with
  | some x => some x
  | none => regexExecAux name s

namespace V18

/-- Model of V18 client-side `check` (source lines 420-426): the name is
`encodeURIComponent`-encoded, then tested with `getCookieRegExp`. -/
def checkClient (doc name : Str) : Bool :=
  jsCookieRegexTest (encodeURIComponent name) doc

/-- Model of V18 server-side `check` (source lines 427-431). -/
def checkServer (req : Option Str) (resp : Option RespVal) (name : Str) : Bool :=
  mapHas (getCombinedCookiesServer req resp) name

/-- Model of V18 client-side `get` (source lines 442-460): guarded by
`check`, then `regExp.exec(document.cookie)`, with
`result[1] ? safeDecodeURIComponent(result[1]) : ''`.  The `none` inner
branch is unreachable because a successful `check` on the same string
guarantees a match. -/
def getClient (doc name : Str) : Str :=
  if checkClient doc name then
    match jsCookieRegexExec (encodeURIComponent name) doc with
    | some cap => if cap ≠ [] then safeDecodeURIComponent cap else []
    | none => []
  else []

/-- Model of V18 server-side `get` (source lines 451-455). -/
def getServer (req : Option Str) (resp : Option RespVal) (name : Str) : Str :=
  if checkServer req resp name then (mapGet (getCombinedCookiesServer req resp) name).getD []
  else []

end V18

/-- The reconciliation step exactly as claim C1 words it: the portion of
the `Set-Cookie` entry before its first `;` is split into name and
value, both sides are percent-decoded with silent fallback, and the
entry overwrites the working map only if the **decoded** name is
non-empty.  (`mergeOne`, from the source, tests the raw name instead.) -/
def mergeOneSpec (m : CMap) (e : Str) : CMap :=
  let parts := jsSplit '=' (headOrNil (jsSplit ';' e))
  let decodedName := safeDecodeURIComponent (headOrNil parts)
  if decodedName ≠ [] then
    mapSet m decodedName (safeDecodeURIComponent (jsToString (second? parts)))
  else m

/-- Boolean string-prefix test. -/
def listStartsWith : Str → Str → Bool
  | [], _ => true
  | _ :: _, [] => false
  | c :: cs, d :: ds => c = d && listStartsWith cs ds

/-- Boolean substring test, for "the serialized string contains ...". -/
def hasSubstr (pat : Str) : Str → Bool
  | [] => listStartsWith pat []
  | c :: r => listStartsWith pat (c :: r) || hasSubstr pat r

/-- All characters of a string are `encodeURIComponent`-unreserved. -/
def unresStr (s : Str) : Prop := ∀ c ∈ s, unreservedURIChar c = true

/-- A cookie value in browser normal form: no `;` and no line
terminators. -/
def goodVal (v : Str) : Prop := ∀ c ∈ v, c ≠ ';' ∧ isLineTerm c = false

/-- A name/value list in browser normal form: non-empty unreserved
names, values free of `;` and line terminators. -/
def goodPairs (l : CMap) : Prop := ∀ p ∈ l, p.1 ≠ [] ∧ unresStr p.1 ∧ goodVal p.2

instance (s : Str) : Decidable (unresStr s) :=
  inferInstanceAs (Decidable (∀ c ∈ s, unreservedURIChar c = true))

instance (v : Str) : Decidable (goodVal v) :=
  inferInstanceAs (Decidable (∀ c ∈ v, c ≠ ';' ∧ isLineTerm c = false))

instance (l : CMap) : Decidable (goodPairs l) :=
  inferInstanceAs (Decidable (∀ p ∈ l, p.1 ≠ [] ∧ unresStr p.1 ∧ goodVal p.2))

/-- Rendering of a name/value list the way browsers render
`document.cookie`: `name=value` pairs joined by `"; "`. -/
def renderDoc : CMap → Str
  | [] => []
  | [p] => p.1 ++ '=' :: p.2
  | p :: rest => p.1 ++ '=' :: (p.2 ++ ';' :: ' ' :: renderDoc rest)

theorem byteSeq_len {b : Nat} {r r1 : List Tok} {cp : Nat} (h : byteSeq b r = some (cp, r1)) :
    r1.length ≤ r.length := by
  unfold byteSeq at h
  repeat' split at h
  all_goals simp_all
  all_goals omega

theorem tdFuel_congr : ∀ (f1 f2 : Nat) (ts : List Tok), ts.length ≤ f1 → ts.length ≤ f2 →
    tdFuel f1 ts = tdFuel f2 ts := by
  intro f1
  induction f1 with
  | zero =>
    intro f2 ts h1 _
    have hts : ts = [] := List.eq_nil_of_length_eq_zero (Nat.le_zero.mp h1)
    subst hts
    cases f2 <;> rfl
  | succ g ih =>
    intro f2 ts h1 h2
    cases ts with
    | nil => cases f2 <;> rfl
    | cons t r =>
      cases f2 with
      | zero => simp at h2
      | succ g2 =>
        cases t with
        | ch c =>
          simp only [tdFuel]
          rw [ih g2 r (by simpa using h1) (by simpa using h2)]
        | byte b =>
          simp only [tdFuel]
          rcases hb : byteSeq b r with _ | ⟨cp, r1⟩
          · rfl
          · have hlen := byteSeq_len hb
            simp only [List.length_cons] at h1 h2
            dsimp only
            rw [ih g2 r1 (by omega) (by omega)]

theorem tokensDecode_ch (c : Char) (ts : List Tok) :
    tokensDecode (Tok.ch c :: ts) = (tokensDecode ts).map (fun l => c :: l) := by
  simp [tokensDecode, tdFuel]

theorem tokensDecode_byte (b : Nat) (ts : List Tok) :
    tokensDecode (Tok.byte b :: ts) =
      match byteSeq b ts with
      | some (cp, r1) => (tokensDecode r1).map (fun l => Char.ofNat cp :: l)
      | none => none := by
  simp only [tokensDecode, List.length_cons, tdFuel]
  rcases hb : byteSeq b ts with _ | ⟨cp, r1⟩
  · rfl
  · dsimp only
    rw [tdFuel_congr ts.length r1.length r1 (byteSeq_len hb) le_rfl]

theorem tokenize_cons_ne {c : Char} (r : Str) (hc : c ≠ '%') :
    tokenize (c :: r) = (tokenize r).map (fun ts => Tok.ch c :: ts) := by
  rw [tokenize.eq_def]
  simp [hc]

theorem tokenize_no_pct {s : Str} (h : '%' ∉ s) : tokenize s = some (s.map Tok.ch) := by
  induction s with
  | nil => rfl
  | cons c r ih =>
    have hc : c ≠ '%' := fun hc => h (hc ▸ List.mem_cons_self c r)
    have hr : '%' ∉ r := fun hm => h (List.mem_cons_of_mem _ hm)
    rw [tokenize_cons_ne r hc, ih hr]
    rfl

theorem tokensDecode_chs (s : Str) : tokensDecode (s.map Tok.ch) = some s := by
  induction s with
  | nil => rfl
  | cons c r ih => rw [List.map_cons, tokensDecode_ch, ih]; rfl

theorem percentDecode_no_pct {s : Str} (h : '%' ∉ s) : percentDecode s = some s := by
  rw [percentDecode, tokenize_no_pct h]
  exact tokensDecode_chs s

theorem safeDecode_no_pct {s : Str} (h : '%' ∉ s) : safeDecodeURIComponent s = s := by
  rw [safeDecodeURIComponent, percentDecode_no_pct h]

theorem tokensDecode_cons_ne_nil {t : Tok} {ts : List Tok} (h : tokensDecode (t :: ts) = some []) :
    False := by
  cases t with
  | ch c =>
    rw [tokensDecode_ch] at h
    simp [Option.map_eq_some'] at h
  | byte b =>
    rw [tokensDecode_byte] at h
    rcases hb : byteSeq b ts with _ | ⟨cp, r1⟩ <;> rw [hb] at h
    · exact Option.noConfusion h
    · simp [Option.map_eq_some'] at h

theorem tokenize_cons_ne_nil {c : Char} {r : Str} {ts : List Tok}
    (h : tokenize (c :: r) = some ts) : ts ≠ [] := by
  intro hts
  subst hts
  rw [tokenize.eq_def] at h
  by_cases hc : c = '%'
  · simp only [if_pos hc] at h
    rcases r with _ | ⟨h1, _ | ⟨h2, r2⟩⟩
    · exact Option.noConfusion h
    · exact Option.noConfusion h
    · by_cases hh : isHexDigit h1 && isHexDigit h2
      · simp only [if_pos hh, Option.map_eq_some'] at h
        obtain ⟨a, _, ha⟩ := h
        exact List.noConfusion ha
      · simp only [if_neg hh] at h
        exact Option.noConfusion h
  · simp only [if_neg hc, Option.map_eq_some'] at h
    obtain ⟨a, _, ha⟩ := h
    exact List.noConfusion ha

theorem safeDecode_eq_nil_iff (s : Str) : safeDecodeURIComponent s = [] ↔ s = [] := by
  constructor
  · intro h
    cases s with
    | nil => rfl
    | cons c r =>
      exfalso
      unfold safeDecodeURIComponent at h
      rcases hd : percentDecode (c :: r) with _ | t
      · rw [hd] at h
        exact List.cons_ne_nil c r h
      · rw [hd] at h
        subst h
        unfold percentDecode at hd
        rcases ht : tokenize (c :: r) with _ | ts
        · rw [ht] at hd
          exact Option.noConfusion hd
        · rw [ht] at hd
          have hd2 : tokensDecode ts = some [] := hd
          cases ts with
          | nil => exact tokenize_cons_ne_nil ht rfl
          | cons t ts2 => exact tokensDecode_cons_ne_nil hd2
  · rintro rfl
    rfl

theorem jsSplit_ne_nil (sep : Char) (l : Str) : jsSplit sep l ≠ [] := by
  cases l with
  | nil => simp [jsSplit]
  | cons c r =>
    simp only [jsSplit]
    rcases h : jsSplit sep r with _ | ⟨s, rest⟩
    · simp
    · by_cases hc : c = sep <;> simp [hc]

theorem jsSplit_no_sep {sep : Char} {a : Str} (h : sep ∉ a) : jsSplit sep a = [a] := by
  induction a with
  | nil => rfl
  | cons c r ih =>
    have hc : c ≠ sep := fun hc => h (hc ▸ List.mem_cons_self c r)
    have hr : sep ∉ r := fun hm => h (List.mem_cons_of_mem _ hm)
    simp only [jsSplit, ih hr, if_neg hc]

theorem jsSplit_append {sep : Char} {a : Str} (b : Str) (h : sep ∉ a) :
    jsSplit sep (a ++ sep :: b) = a :: jsSplit sep b := by
  induction a with
  | nil =>
    simp only [List.nil_append, jsSplit]
    rcases hb : jsSplit sep b with _ | ⟨s, rest⟩
    · exact absurd hb (jsSplit_ne_nil sep b)
    · simp
  | cons c r ih =>
    have hc : c ≠ sep := fun hc => h (hc ▸ List.mem_cons_self c r)
    have hr : sep ∉ r := fun hm => h (List.mem_cons_of_mem _ hm)
    simp only [List.cons_append, jsSplit, List.append_eq, ih hr, if_neg hc]

theorem mapGet_set_self (m : CMap) (k v : Str) : mapGet (mapSet m k v) k = some v := by
  induction m with
  | nil => simp [mapSet, mapGet]
  | cons p r ih =>
    obtain ⟨k0, v0⟩ := p
    by_cases h : k0 = k
    · simp [mapSet, mapGet, h]
    · simp [mapSet, mapGet, h, ih]

theorem mapGet_set_ne {a k : Str} (m : CMap) (v : Str) (h : a ≠ k) :
    mapGet (mapSet m a v) k = mapGet m k := by
  induction m with
  | nil => simp [mapSet, mapGet, h]
  | cons p r ih =>
    obtain ⟨k0, v0⟩ := p
    by_cases h0 : k0 = a
    · subst h0
      simp [mapSet, mapGet, h]
    · by_cases h1 : k0 = k
      · subst h1
        simp [mapSet, mapGet, h0]
      · simp [mapSet, mapGet, h0, h1, ih]

theorem mapHas_set (m : CMap) (a v k : Str) :
    mapHas (mapSet m a v) k = (decide (a = k) || mapHas m k) := by
  by_cases h : a = k
  · subst h
    simp [mapHas, mapGet_set_self]
  · simp [mapHas, mapGet_set_ne m v h, h]

theorem mergeOneSpec_eq_mergeOne (m : CMap) (e : Str) : mergeOneSpec m e = mergeOne m e := by
  simp only [mergeOneSpec, mergeOne]
  by_cases h : headOrNil (jsSplit '=' (headOrNil (jsSplit ';' e))) = []
  · rw [if_neg (by simp [safeDecode_eq_nil_iff, h]), if_neg (by simp [h])]
  · rw [if_pos (fun hh => h ((safeDecode_eq_nil_iff _).mp hh)), if_pos h]

/-- C1: on a server-side read the reconciled map is the request-header
map overridden entry-by-entry by the response `Set-Cookie` entries —
for each entry the part before its first `;` is split into name and
value, both percent-decoded with silent fallback, and the entry
overwrites the map exactly when the decoded name is non-empty (the
source tests the raw name, which is equivalent since decoding preserves
emptiness); in particular request `{a: "1", b: "2"}` with response
entry `a=9; Path=/` reconciles to `{a: "9", b: "2"}`. -/
theorem c1_response_overrides_request :
    (∀ (m : CMap) (e : Str), mergeOneSpec m e = mergeOne m e) ∧
    getCombinedCookiesServer (some (("a=1; b=2").data))
        (some (RespVal.many [("a=9; Path=/").data])) =
      [((("a").data), (("9").data)), ((("b").data), (("2").data))] :=
  ⟨mergeOneSpec_eq_mergeOne, by decide⟩

/-- C3: the claim that `cookieStringToMap` returns an empty map for both
the empty string and `null`/`undefined` holds only for the empty string;
the `cookieString?.length < 1` guard evaluates `undefined < 1 === false`
for nullish input, so `cookieString.split(';')` throws a `TypeError`.
The optional chaining in the guard shows nullish input was meant to be
handled, so this is a bug in the code against the claimed behavior. -/
theorem c3_nullish_parse_throws :
    cookieStringToMapJs none = Except.error () ∧
    cookieStringToMapJs (some (("").data)) = Except.ok [] := ⟨rfl, rfl⟩

/-- C4 counterexample: the claim says a segment with no `=` gets the
empty string as its value, but parsing `"foo"` maps `foo` to the
string `"undefined"` (the ECMAScript string coercion of the missing
split component), which is not the empty string. -/
theorem c4_counterexample :
    mapGet (cookieStringToMap (("foo").data)) (("foo").data) = some (("undefined").data) ∧
    (("undefined").data : Str) ≠ [] := by decide

/-- C4 amended: a segment with no `=` yields the whole segment (leading
spaces stripped, percent-decoded) as the name and the literal string
`"undefined"` — not the empty string — as the value, and no exception is
raised. -/
theorem c4_no_equals_segment_amended (seg : Str) (h0 : seg ≠ []) (h1 : '=' ∉ seg)
    (h2 : ';' ∉ seg) :
    cookieStringToMap seg =
      [(safeDecodeURIComponent (dropLeadingSpaces seg), ("undefined").data)] := by
  unfold cookieStringToMap
  rw [if_neg (by simp [Nat.lt_one_iff, List.length_eq_zero, h0])]
  rw [jsSplit_no_sep h2]
  simp only [List.foldl]
  unfold parseSeg
  rw [jsSplit_no_sep h1]
  simp only [headOrNil, second?, jsToString]
  rw [@safeDecode_no_pct (("undefined").data) (by decide)]
  rfl

/-- C4 witness: the amended statement evaluated at the segment `foo`. -/
theorem c4_no_equals_segment_witness :
    cookieStringToMap (("foo").data) =
      [(safeDecodeURIComponent (dropLeadingSpaces (("foo").data)), ("undefined").data)] :=
  c4_no_equals_segment_amended (("foo").data) (by decide) (by decide) (by decide)

/-- C5 counterexample: the claim says parsing `"a=b=c"` yields
`a -> "b=c"`; the code splits on every `=` and keeps only the first two
components, yielding `a -> "b"`. -/
theorem c5_counterexample :
    mapGet (cookieStringToMap (("a=b=c").data)) (("a").data) = some (("b").data) ∧
    (("b").data : Str) ≠ ("b=c").data := by decide

/-- C5 amended: for a segment with more than one `=`, the name is the
substring before the first `=` and the value is the substring between
the first and the second `=` (everything after the second `=` is
discarded, not kept); the same rule applies when the reconciler splits
a `Set-Cookie` entry's leading name=value pair. -/
theorem c5_first_equals_amended (n v1 v2 : Str) (m : CMap)
    (hn : '=' ∉ n) (hv1 : '=' ∉ v1)
    (sn : ';' ∉ n) (sv1 : ';' ∉ v1) (sv2 : ';' ∉ v2) :
    cookieStringToMap (n ++ '=' :: (v1 ++ '=' :: v2)) =
      [(safeDecodeURIComponent (dropLeadingSpaces n), safeDecodeURIComponent v1)] ∧
    (n ≠ [] → mergeOne m (n ++ '=' :: (v1 ++ '=' :: v2)) =
      mapSet m (safeDecodeURIComponent n) (safeDecodeURIComponent v1)) := by
  have hseg : ';' ∉ n ++ '=' :: (v1 ++ '=' :: v2) := by
    intro hm
    rcases List.mem_append.mp hm with h | h
    · exact sn h
    · rcases List.mem_cons.mp h with h | h
      · exact absurd h (by decide)
      · rcases List.mem_append.mp h with h | h
        · exact sv1 h
        · rcases List.mem_cons.mp h with h | h
          · exact absurd h (by decide)
          · exact sv2 h
  have hsplit : jsSplit ';' (n ++ '=' :: (v1 ++ '=' :: v2)) = [n ++ '=' :: (v1 ++ '=' :: v2)] :=
    jsSplit_no_sep hseg
  have heq : jsSplit '=' (n ++ '=' :: (v1 ++ '=' :: v2)) = n :: v1 :: jsSplit '=' v2 := by
    rw [jsSplit_append _ hn, jsSplit_append _ hv1]
  constructor
  · unfold cookieStringToMap
    rw [if_neg (by simp)]
    rw [hsplit]
    simp only [List.foldl]
    unfold parseSeg
    rw [heq]
    simp only [headOrNil, second?, jsToString]
    rfl
  · intro hne
    unfold mergeOne
    rw [hsplit]
    simp only [headOrNil]
    rw [heq]
    simp only [headOrNil, second?, jsToString]
    rw [if_pos hne]

/-- C5 witness: the amended statement evaluated at the segment
`a=b=c`. -/
theorem c5_first_equals_witness :
    cookieStringToMap ((("a").data) ++ '=' :: ((("b").data) ++ '=' :: ("c").data)) =
      [(safeDecodeURIComponent (dropLeadingSpaces (("a").data)),
        safeDecodeURIComponent (("b").data))] ∧
    ((("a").data : Str) ≠ [] → mergeOne [] ((("a").data) ++ '=' :: ((("b").data) ++ '=' :: ("c").data)) =
      mapSet [] (safeDecodeURIComponent (("a").data)) (safeDecodeURIComponent (("b").data))) :=
  c5_first_equals_amended (("a").data) (("b").data) (("c").data) []
    (by decide) (by decide) (by decide) (by decide) (by decide)

theorem listStartsWith_self_append (p t : Str) : listStartsWith p (p ++ t) = true := by
  induction p with
  | nil => rfl
  | cons c r ih => simp [listStartsWith, ih]

theorem hasSubstr_of_startsWith {pat s : Str} (h : listStartsWith pat s = true) :
    hasSubstr pat s = true := by
  cases s with
  | nil => exact h
  | cons c r => simp [hasSubstr, h]

theorem hasSubstr_cons {pat r : Str} (c : Char) (h : hasSubstr pat r = true) :
    hasSubstr pat (c :: r) = true := by
  simp [hasSubstr, h]

theorem hasSubstr_append_left {pat t : Str} (s : Str) (h : hasSubstr pat t = true) :
    hasSubstr pat (s ++ t) = true := by
  induction s with
  | nil => exact h
  | cons c r ih => exact hasSubstr_cons c ih

theorem hasSubstr_here (pat b : Str) : hasSubstr pat (pat ++ b) = true :=
  hasSubstr_of_startsWith (listStartsWith_self_append pat b)

theorem expiresClause_ok {o : CookieOptions} (now : Int) (he : o.expires ≠ some JsExpires.obj) :
    ∃ e, V17.expiresClause? o now = Except.ok e := by
  cases hx : o.expires with
  | none => exact ⟨[], by simp [V17.expiresClause?, hx]⟩
  | some e3 =>
    cases e3 with
    | num d =>
      by_cases hd : d = 0
      · exact ⟨[], by simp [V17.expiresClause?, hx, hd]⟩
      · exact ⟨("expires=").data ++ dateToUTCString (now + d * msPerDay) ++ [';'],
          by simp [V17.expiresClause?, hx, hd]⟩
    | date t =>
      exact ⟨("expires=").data ++ dateToUTCString t ++ [';'], by simp [V17.expiresClause?, hx]⟩
    | obj => exact absurd hx he

theorem setClientCookie_ok {o : CookieOptions} {now : Int} {e : Str} (name value : Str)
    (h : V17.expiresClause? o now = Except.ok e) :
    V17.setClientCookie name value o now =
      Except.ok (encodeURIComponent name ++ '=' :: (encodeURIComponent value ++ ';' ::
        (e ++ (V17.pathClause o ++ (V17.domainClause o ++ (V17.secureClause o ++
          (V17.sameSiteClause o ++ V17.partitionedClause o))))))) := by
  rw [V17.setClientCookie, h]

/-- C2 counterexample: in the split V17 serializer, `setServerCookie`
has no `secure === false && sameSite === 'None'` correction — the
server-side structured record omits `secure` entirely instead of
carrying `secure = true` as claimed. -/
theorem c2_counterexample :
    (V17.setServerCookie (("x").data) (("y").data)
        {secure := some false, sameSite := some (("None").data)} 0).secure = none ∧
    (none : Option Bool) ≠ some true := by decide

/-- C2 amended: with `secure: false` and `sameSite: 'None'`, the V17
client sink and both V18 sinks carry `secure = true` (in V18 the
correction happens once, before either sink encoding); the V17 server
sink alone omits the flag, because its `setServerCookie` lacks the
correction. -/
theorem c2_secure_forced_amended (name value : Str) (o : CookieOptions) (now : Int)
    (hs : o.secure = some false) (hn : o.sameSite = some (("None").data))
    (he : o.expires ≠ some JsExpires.obj) :
    (∃ s, V17.setClientCookie name value o now = Except.ok s ∧
        hasSubstr (("secure;").data) s = true) ∧
    (V17.setServerCookie name value o now).secure = none ∧
    (V18.buildOutput o now).secure = some true ∧
    hasSubstr (("secure;").data)
      (V18.clientStringOf name value (V18.buildOutput o now)) = true := by
  have hsc : V17.secureClause o = ("secure;").data := by
    simp [V17.secureClause, V17.secureAfterForce, hs, hn]
  have h18 : (V18.buildOutput o now).secure = some true := by
    simp [V18.buildOutput, hs, hn]
  obtain ⟨e, he2⟩ := expiresClause_ok now he
  refine ⟨⟨_, setClientCookie_ok name value he2, ?_⟩, by simp [V17.setServerCookie, hs], h18, ?_⟩
  · rw [hsc]
    apply hasSubstr_append_left
    apply hasSubstr_cons
    apply hasSubstr_append_left
    apply hasSubstr_cons
    apply hasSubstr_append_left
    apply hasSubstr_append_left
    apply hasSubstr_append_left
    exact hasSubstr_here _ _
  · have hclause : V18.ooSecureClause (V18.buildOutput o now) = ("secure;").data := by
      simp [V18.ooSecureClause, h18]
    rw [V18.clientStringOf, hclause]
    apply hasSubstr_append_left
    apply hasSubstr_cons
    apply hasSubstr_append_left
    apply hasSubstr_cons
    apply hasSubstr_append_left
    apply hasSubstr_append_left
    apply hasSubstr_append_left
    exact hasSubstr_here _ _

/-- C2 witness: the amended statement evaluated at
`set("x", "y", {secure: false, sameSite: 'None'})` at time 0. -/
theorem c2_secure_forced_witness :
    (∃ s, V17.setClientCookie (("x").data) (("y").data)
        {secure := some false, sameSite := some (("None").data)} 0 = Except.ok s ∧
        hasSubstr (("secure;").data) s = true) ∧
    (V17.setServerCookie (("x").data) (("y").data)
        {secure := some false, sameSite := some (("None").data)} 0).secure = none ∧
    (V18.buildOutput {secure := some false, sameSite := some (("None").data)} 0).secure =
      some true ∧
    hasSubstr (("secure;").data)
      (V18.clientStringOf (("x").data) (("y").data)
        (V18.buildOutput {secure := some false, sameSite := some (("None").data)} 0)) = true :=
  c2_secure_forced_amended (("x").data) (("y").data)
    {secure := some false, sameSite := some (("None").data)} 0 rfl rfl (by decide)

/-- C7 counterexample: in the V17 server context the positional call
`set("x","y",7,"/app")` and the structured call
`set("x","y",{expires:7,path:"/app"})` do not produce identical
results — the repack defaults `sameSite` to `Lax` (lowercased to `lax`
by the server sink), while the structured call omits `sameSite`
entirely. -/
theorem c7_counterexample :
    V17.set (("x").data) (("y").data) (JsArg3.num 7) (some (("/app").data))
        none none none none false 0 =
      Except.ok (SinkOut.server (("x").data) (("y").data)
        { expires := some (JsExpires.date 604800000), path := some (("/app").data),
          sameSite := some (("lax").data) }) ∧
    V17.set (("x").data) (("y").data)
        (JsArg3.opts {expires := some (JsExpires.num 7), path := some (("/app").data)})
        none none none none none false 0 =
      Except.ok (SinkOut.server (("x").data) (("y").data)
        { expires := some (JsExpires.date 604800000), path := some (("/app").data) }) ∧
    ({ expires := some (JsExpires.date 604800000), path := some (("/app").data),
          sameSite := some (("lax").data) } : ExpressOptions) ≠
      { expires := some (JsExpires.date 604800000), path := some (("/app").data) } := by
  exact ⟨rfl, rfl, by decide⟩

/-- C7 amended: the positional form is repacked into the structured form
exactly once (detection is false on the repacked call), and
`set("x","y",7,"/app")` equals `set("x","y",{expires:7,path:"/app"})` in
the unified V18 serializer (both sinks) and in the V17 client sink; in
the V17 server sink the two agree except that the positional form
additionally carries `sameSite = "lax"`. -/
theorem c7_legacy_positional_amended :
    (∀ (ctx : Bool) (now : Int),
      V18.set (("x").data) (("y").data) (JsArg3.num 7) (some (("/app").data))
          none none none none ctx now =
        V18.set (("x").data) (("y").data)
          (JsArg3.opts {expires := some (JsExpires.num 7), path := some (("/app").data)})
          none none none none none ctx now) ∧
    (∀ now : Int,
      V17.set (("x").data) (("y").data) (JsArg3.num 7) (some (("/app").data))
          none none none none true now =
        V17.set (("x").data) (("y").data)
          (JsArg3.opts {expires := some (JsExpires.num 7), path := some (("/app").data)})
          none none none none none true now) ∧
    (∀ now : Int,
      V17.setServerCookie (("x").data) (("y").data)
          (repack (JsArg3.num 7) (some (("/app").data)) none none none none) now =
        { V17.setServerCookie (("x").data) (("y").data)
            {expires := some (JsExpires.num 7), path := some (("/app").data)} now
          with sameSite := some (("lax").data) }) ∧
    (∀ o : CookieOptions, legacyDetect (JsArg3.opts o) none none none none = false) := by
  refine ⟨fun ctx now => rfl, fun now => rfl, fun now => rfl, fun o => rfl⟩

/-- C8 counterexample: the unified V18 serializer lowercases `sameSite`
before building the client string too, so
`set("x","y",{sameSite:'Lax'})` writes `x=y;sameSite=lax;` to the
document — the claimed original-case `sameSite=Lax` clause is absent. -/
theorem c8_counterexample :
    V18.setStructured (("x").data) (("y").data)
        (JsArg3.opts {sameSite := some (("Lax").data)}) true 0 =
      SinkOut.client (("x=y;sameSite=lax;").data) ∧
    hasSubstr (("sameSite=Lax").data) (("x=y;sameSite=lax;").data) = false := by
  exact ⟨rfl, by decide⟩

/-- C8 amended: the V17 split serializer emits `sameSite` in its
original case on the client string and lowercased in the server record;
the unified V18 serializer lowercases once for both sinks, so its client
string also carries the lowercased token. -/
theorem c8_samesite_case_amended (name value : Str) (o : CookieOptions) (now : Int) (ss : Str)
    (hss : o.sameSite = some ss) (hne : ss ≠ [])
    (he : o.expires ≠ some JsExpires.obj) :
    (∃ s, V17.setClientCookie name value o now = Except.ok s ∧
        hasSubstr (("sameSite=").data ++ ss ++ [';']) s = true) ∧
    (V17.setServerCookie name value o now).sameSite = some (toLowerStr ss) ∧
    (V18.buildOutput o now).sameSite = some (toLowerStr ss) ∧
    hasSubstr (("sameSite=").data ++ toLowerStr ss ++ [';'])
      (V18.clientStringOf name value (V18.buildOutput o now)) = true := by
  have hcl : V17.sameSiteClause o = ("sameSite=").data ++ ss ++ [';'] := by
    simp [V17.sameSiteClause, optStrTruthy, hss, hne]
  have h18 : (V18.buildOutput o now).sameSite = some (toLowerStr ss) := by
    simp [V18.buildOutput, optStrTruthy, hss, hne]
  obtain ⟨e, he2⟩ := expiresClause_ok now he
  refine ⟨⟨_, setClientCookie_ok name value he2, ?_⟩,
    by simp [V17.setServerCookie, hss, hne], h18, ?_⟩
  · rw [hcl]
    apply hasSubstr_append_left
    apply hasSubstr_cons
    apply hasSubstr_append_left
    apply hasSubstr_cons
    apply hasSubstr_append_left
    apply hasSubstr_append_left
    apply hasSubstr_append_left
    apply hasSubstr_append_left
    exact hasSubstr_here _ _
  · have hclause : V18.ooSameSiteClause (V18.buildOutput o now) =
        ("sameSite=").data ++ toLowerStr ss ++ [';'] := by
      simp [V18.ooSameSiteClause, h18]
    rw [V18.clientStringOf, hclause]
    apply hasSubstr_append_left
    apply hasSubstr_cons
    apply hasSubstr_append_left
    apply hasSubstr_cons
    apply hasSubstr_append_left
    apply hasSubstr_append_left
    apply hasSubstr_append_left
    apply hasSubstr_append_left
    exact hasSubstr_here _ _

/-- C8 witness: the amended statement evaluated at
`set("x", "y", {sameSite: 'Lax'})` at time 0. -/
theorem c8_samesite_case_witness :
    (∃ s, V17.setClientCookie (("x").data) (("y").data)
        {sameSite := some (("Lax").data)} 0 = Except.ok s ∧
        hasSubstr (("sameSite=").data ++ ("Lax").data ++ [';']) s = true) ∧
    (V17.setServerCookie (("x").data) (("y").data)
        {sameSite := some (("Lax").data)} 0).sameSite = some (toLowerStr (("Lax").data)) ∧
    (V18.buildOutput {sameSite := some (("Lax").data)} 0).sameSite =
      some (toLowerStr (("Lax").data)) ∧
    hasSubstr (("sameSite=").data ++ toLowerStr (("Lax").data) ++ [';'])
      (V18.clientStringOf (("x").data) (("y").data)
        (V18.buildOutput {sameSite := some (("Lax").data)} 0)) = true :=
  c8_samesite_case_amended (("x").data) (("y").data) {sameSite := some (("Lax").data)} 0
    (("Lax").data) rfl (by decide) (by decide)

theorem hexU_isHex : ∀ m, m < 16 → isHexDigit (hexDigU m) = true := by decide

theorem hexU_val : ∀ m, m < 16 → hexVal (hexDigU m) = m := by decide

theorem char_toNat_valid (c : Char) :
    c.toNat < 55296 ∨ (57344 ≤ c.toNat ∧ c.toNat < 1114112) := c.valid

theorem tokenize_pct (h1 h2 : Char) (t : Str) (hh1 : isHexDigit h1 = true)
    (hh2 : isHexDigit h2 = true) :
    tokenize ('%' :: h1 :: h2 :: t) =
      (tokenize t).map (fun ts => Tok.byte (hexVal h1 * 16 + hexVal h2) :: ts) := by
  rw [tokenize.eq_def]
  simp [hh1, hh2]

theorem tokenize_escBytes (bs : List Nat) (t : Str) (hb : ∀ b ∈ bs, b < 256) :
    tokenize (escBytes bs ++ t) = (tokenize t).map (fun ts => bs.map Tok.byte ++ ts) := by
  induction bs with
  | nil => simp [escBytes]
  | cons b r ih =>
    have hblt : b < 256 := hb b (List.mem_cons_self b r)
    have hr : ∀ x ∈ r, x < 256 := fun x hx => hb x (List.mem_cons_of_mem _ hx)
    have hdiv : b / 16 < 16 := by omega
    have hmod : b % 16 < 16 := by omega
    rw [escBytes, List.cons_append, List.cons_append, List.cons_append,
      tokenize_pct _ _ _ (hexU_isHex _ hdiv) (hexU_isHex _ hmod), ih hr]
    rw [hexU_val _ hdiv, hexU_val _ hmod]
    have hbeq : b / 16 * 16 + b % 16 = b := by omega
    rw [hbeq]
    cases tokenize t <;> rfl

theorem byteSeq_one {b : Nat} (r : List Tok) (h : b < 128) : byteSeq b r = some (b, r) := by
  simp [byteSeq, h]

theorem byteSeq_two {b b1 : Nat} (r : List Tok) (h1 : 194 ≤ b) (h2 : b < 224)
    (hc : isContByte b1 = true) :
    byteSeq b (Tok.byte b1 :: r) = some ((b - 192) * 64 + (b1 - 128), r) := by
  rw [byteSeq, if_neg (by omega), if_neg (by omega), if_pos h2]
  simp [hc]

theorem byteSeq_three {b b1 b2 : Nat} (r : List Tok) (h1 : 224 ≤ b) (h2 : b < 240)
    (hc1 : isContByte b1 = true) (hc2 : isContByte b2 = true)
    (hg1 : b ≠ 224 ∨ 160 ≤ b1) (hg2 : b ≠ 237 ∨ b1 < 160) :
    byteSeq b (Tok.byte b1 :: Tok.byte b2 :: r) =
      some (((b - 224) * 64 + (b1 - 128)) * 64 + (b2 - 128), r) := by
  rw [byteSeq, if_neg (by omega), if_neg (by omega), if_neg (by omega), if_pos h2]
  have hg1b : (decide (b ≠ 224) || decide (160 ≤ b1)) = true := by
    rcases hg1 with h | h <;> simp [h]
  have hg2b : (decide (b ≠ 237) || decide (b1 < 160)) = true := by
    rcases hg2 with h | h <;> simp [h]
  simp [hc1, hc2, hg1b, hg2b]
  exact ⟨by tauto, by tauto⟩

theorem byteSeq_four {b b1 b2 b3 : Nat} (r : List Tok) (h1 : 240 ≤ b) (h2 : b < 245)
    (hc1 : isContByte b1 = true) (hc2 : isContByte b2 = true) (hc3 : isContByte b3 = true)
    (hg1 : b ≠ 240 ∨ 144 ≤ b1) (hg2 : b ≠ 244 ∨ b1 < 144) :
    byteSeq b (Tok.byte b1 :: Tok.byte b2 :: Tok.byte b3 :: r) =
      some ((((b - 240) * 64 + (b1 - 128)) * 64 + (b2 - 128)) * 64 + (b3 - 128), r) := by
  rw [byteSeq, if_neg (by omega), if_neg (by omega), if_neg (by omega), if_neg (by omega),
    if_pos h2]
  have hg1b : (decide (b ≠ 240) || decide (144 ≤ b1)) = true := by
    rcases hg1 with h | h <;> simp [h]
  have hg2b : (decide (b ≠ 244) || decide (b1 < 144)) = true := by
    rcases hg2 with h | h <;> simp [h]
  simp [hc1, hc2, hc3, hg1b, hg2b]
  exact ⟨by tauto, by tauto⟩

theorem tokensDecode_utf8 (c : Char) (ts : List Tok) :
    tokensDecode ((utf8Bytes c.toNat).map Tok.byte ++ ts) =
      (tokensDecode ts).map (fun l => c :: l) := by
  have hv := char_toNat_valid c
  have hofn : Char.ofNat c.toNat = c := Char.ofNat_toNat c
  by_cases h1 : c.toNat < 128
  · rw [utf8Bytes, if_pos h1]
    rw [List.map_cons, List.map_nil, List.cons_append, List.nil_append, tokensDecode_byte,
      byteSeq_one ts h1]
    dsimp only
    rw [hofn]
  · by_cases h2 : c.toNat < 2048
    · rw [utf8Bytes, if_neg h1, if_pos h2]
      simp only [List.map_cons, List.map_nil, List.cons_append, List.nil_append]
      rw [tokensDecode_byte,
        byteSeq_two ts (by omega) (by omega) (by simp [isContByte]; omega)]
      have hcp : (192 + c.toNat / 64 - 192) * 64 + (128 + c.toNat % 64 - 128) = c.toNat := by
        omega
      rw [hcp]
      dsimp only
      rw [hofn]
    · by_cases h3 : c.toNat < 65536
      · rw [utf8Bytes, if_neg h1, if_neg h2, if_pos h3]
        simp only [List.map_cons, List.map_nil, List.cons_append, List.nil_append]
        rw [tokensDecode_byte,
          byteSeq_three ts (by omega) (by omega) (by simp [isContByte]; omega)
            (by simp [isContByte]; omega) (by omega) (by omega)]
        have hcp : ((224 + c.toNat / 4096 - 224) * 64 + (128 + c.toNat / 64 % 64 - 128)) * 64 +
            (128 + c.toNat % 64 - 128) = c.toNat := by omega
        rw [hcp]
        dsimp only
        rw [hofn]
      · rw [utf8Bytes, if_neg h1, if_neg h2, if_neg h3]
        simp only [List.map_cons, List.map_nil, List.cons_append, List.nil_append]
        rw [tokensDecode_byte,
          byteSeq_four ts (by omega) (by omega) (by simp [isContByte]; omega)
            (by simp [isContByte]; omega) (by simp [isContByte]; omega) (by omega) (by omega)]
        have hcp : (((240 + c.toNat / 262144 - 240) * 64 + (128 + c.toNat / 4096 % 64 - 128)) *
            64 + (128 + c.toNat / 64 % 64 - 128)) * 64 + (128 + c.toNat % 64 - 128) =
            c.toNat := by omega
        rw [hcp]
        dsimp only
        rw [hofn]

theorem utf8Bytes_lt (c : Char) : ∀ b ∈ utf8Bytes c.toNat, b < 256 := by
  have hv := char_toNat_valid c
  intro b hb
  by_cases h1 : c.toNat < 128
  · rw [utf8Bytes, if_pos h1] at hb
    simp at hb
    omega
  · by_cases h2 : c.toNat < 2048
    · rw [utf8Bytes, if_neg h1, if_pos h2] at hb
      simp at hb
      rcases hb with h | h <;> omega
    · by_cases h3 : c.toNat < 65536
      · rw [utf8Bytes, if_neg h1, if_neg h2, if_pos h3] at hb
        simp at hb
        rcases hb with h | h | h <;> omega
      · rw [utf8Bytes, if_neg h1, if_neg h2, if_neg h3] at hb
        simp at hb
        rcases hb with h | h | h | h <;> omega

theorem unres_no_pct {c : Char} (h : unreservedURIChar c = true) : c ≠ '%' := by
  rintro rfl
  revert h
  decide

theorem unres_no_semi {c : Char} (h : unreservedURIChar c = true) : c ≠ ';' := by
  rintro rfl
  revert h
  decide

theorem unres_no_eq {c : Char} (h : unreservedURIChar c = true) : c ≠ '=' := by
  rintro rfl
  revert h
  decide

theorem unres_no_space {c : Char} (h : unreservedURIChar c = true) : c ≠ ' ' := by
  rintro rfl
  revert h
  decide

theorem tokenize_encChar (c : Char) (t : Str) :
    tokenize (encChar c ++ t) =
      (tokenize t).map (fun ts =>
        (if unreservedURIChar c then [Tok.ch c] else (utf8Bytes c.toNat).map Tok.byte) ++ ts) := by
  by_cases hu : unreservedURIChar c
  · rw [encChar, if_pos hu, List.singleton_append, tokenize_cons_ne t (unres_no_pct hu)]
    simp [hu]
  · rw [encChar, if_neg hu, tokenize_escBytes _ _ (utf8Bytes_lt c)]
    simp [hu]

theorem tokensDecode_encToks (c : Char) (ts : List Tok) :
    tokensDecode
        ((if unreservedURIChar c then [Tok.ch c] else (utf8Bytes c.toNat).map Tok.byte) ++ ts) =
      (tokensDecode ts).map (fun l => c :: l) := by
  by_cases hu : unreservedURIChar c
  · rw [if_pos hu, List.singleton_append, tokensDecode_ch]
  · rw [if_neg hu, tokensDecode_utf8]

theorem percentDecode_enc (s : Str) : percentDecode (encodeURIComponent s) = some s := by
  suffices h : ∃ TS, tokenize (encodeURIComponent s) = some TS ∧ tokensDecode TS = some s by
    obtain ⟨TS, h1, h2⟩ := h
    rw [percentDecode, h1]
    exact h2
  induction s with
  | nil => exact ⟨[], rfl, rfl⟩
  | cons c r ih =>
    obtain ⟨TS, h1, h2⟩ := ih
    refine ⟨(if unreservedURIChar c then [Tok.ch c] else (utf8Bytes c.toNat).map Tok.byte) ++ TS,
      ?_, ?_⟩
    · rw [encodeURIComponent, tokenize_encChar, h1]
      rfl
    · rw [tokensDecode_encToks, h2]
      rfl

theorem safeDecode_enc (s : Str) : safeDecodeURIComponent (encodeURIComponent s) = s := by
  rw [safeDecodeURIComponent, percentDecode_enc]

theorem hexU_bounded_ne : ∀ m, m < 16 →
    hexDigU m ≠ ';' ∧ hexDigU m ≠ '=' ∧ hexDigU m ≠ ' ' := by decide

theorem mem_escBytes {d : Char} : ∀ {bs : List Nat}, d ∈ escBytes bs →
    d = '%' ∨ ∃ b ∈ bs, d = hexDigU (b / 16) ∨ d = hexDigU (b % 16) := by
  intro bs
  induction bs with
  | nil => intro h; exact absurd h (List.not_mem_nil d)
  | cons b r ih =>
    intro h
    rw [escBytes] at h
    rcases List.mem_cons.mp h with h | h
    · exact Or.inl h
    rcases List.mem_cons.mp h with h | h
    · exact Or.inr ⟨b, List.mem_cons_self b r, Or.inl h⟩
    rcases List.mem_cons.mp h with h | h
    · exact Or.inr ⟨b, List.mem_cons_self b r, Or.inr h⟩
    · rcases ih h with h | ⟨b2, hb2, h2⟩
      · exact Or.inl h
      · exact Or.inr ⟨b2, List.mem_cons_of_mem _ hb2, h2⟩

theorem enc_not_special {s : Str} {d : Char} (hd : d ∈ encodeURIComponent s) :
    d ≠ ';' ∧ d ≠ '=' ∧ d ≠ ' ' := by
  induction s with
  | nil => exact absurd hd (List.not_mem_nil d)
  | cons c r ih =>
    rw [encodeURIComponent] at hd
    rcases List.mem_append.mp hd with h | h
    · by_cases hu : unreservedURIChar c
      · rw [encChar, if_pos hu] at h
        rcases List.mem_cons.mp h with h | h
        · subst h
          exact ⟨unres_no_semi hu, unres_no_eq hu, unres_no_space hu⟩
        · exact absurd h (List.not_mem_nil d)
      · rw [encChar, if_neg hu] at h
        rcases mem_escBytes h with h | ⟨b, hb, h2⟩
        · subst h
          refine ⟨by decide, by decide, by decide⟩
        · have hblt : b < 256 := utf8Bytes_lt c b hb
          rcases h2 with h2 | h2 <;> subst h2
          · exact hexU_bounded_ne _ (by omega)
          · exact hexU_bounded_ne _ (by omega)
    · exact ih h

theorem enc_no_semi (s : Str) : ';' ∉ encodeURIComponent s :=
  fun h => (enc_not_special h).1 rfl

theorem enc_no_eq (s : Str) : '=' ∉ encodeURIComponent s :=
  fun h => (enc_not_special h).2.1 rfl

theorem utf8Bytes_ne_nil (n : Nat) : utf8Bytes n ≠ [] := by
  rw [utf8Bytes]
  split_ifs <;> simp

theorem encChar_ne_nil (c : Char) : encChar c ≠ [] := by
  rw [encChar]
  split_ifs with hu
  · simp
  · rcases hb : utf8Bytes c.toNat with _ | ⟨b, r⟩
    · exact absurd hb (utf8Bytes_ne_nil _)
    · rw [escBytes]
      simp

theorem enc_eq_nil_iff (s : Str) : encodeURIComponent s = [] ↔ s = [] := by
  cases s with
  | nil => simp [encodeURIComponent]
  | cons c r =>
    rw [encodeURIComponent]
    simp [List.append_eq_nil, encChar_ne_nil c]

theorem dropLeadingSpaces_of_head {s : Str} (h : ∀ c ∈ s, c ≠ ' ') :
    dropLeadingSpaces s = s := by
  cases s with
  | nil => rfl
  | cons c r =>
    rw [dropLeadingSpaces, List.dropWhile_cons]
    simp [h c (List.mem_cons_self c r)]

theorem setClientCookie_empty (name value : Str) (now : Int) :
    V17.setClientCookie name value {} now =
      Except.ok (encodeURIComponent name ++ '=' :: (encodeURIComponent value ++ ';' ::
        ("sameSite=Lax;").data)) := by
  rw [setClientCookie_ok name value (show V17.expiresClause? {} now = Except.ok [] from rfl)]
  simp [V17.pathClause, V17.domainClause, V17.secureClause, V17.secureAfterForce,
    V17.sameSiteClause, V17.partitionedClause, optStrTruthy]

theorem parseSeg_pair (m : CMap) (n v : Str) (hn : '=' ∉ n) (hv : '=' ∉ v)
    (hsp : ∀ c ∈ n, c ≠ ' ') :
    parseSeg m (n ++ '=' :: v) = mapSet m (safeDecodeURIComponent n) (safeDecodeURIComponent v) := by
  rw [parseSeg, jsSplit_append v hn, jsSplit_no_sep hv]
  simp only [headOrNil, second?, jsToString]
  rw [dropLeadingSpaces_of_head hsp]

/-- C9 counterexample: the serialized string always ends with a
`sameSite=Lax;` clause and a trailing empty segment, so the name
`sameSite` — whose characters are perfectly percent-safe — does not
round-trip: `parse(serializeClientSide("sameSite","x",{}))` maps
`sameSite` to `Lax`, not to `x`. -/
theorem c9_counterexample :
    V17.setClientCookie (("sameSite").data) (("x").data) {} 0 =
      Except.ok (("sameSite=x;sameSite=Lax;").data) ∧
    mapGet (cookieStringToMap (("sameSite=x;sameSite=Lax;").data)) (("sameSite").data) =
      some (("Lax").data) ∧
    (("Lax").data : Str) ≠ ("x").data := by
  refine ⟨rfl, by decide, by decide⟩

/-- C9 amended: for every name/value pair, parsing the attribute-free
client-side serialization yields a map sending the name to the value,
provided the name is neither the string `sameSite` (overwritten by the
trailing `sameSite=Lax;` clause) nor the empty string (overwritten by
the entry the trailing `;` produces). -/
theorem c9_roundtrip_amended (name value : Str) (now : Int)
    (h1 : name ≠ ("sameSite").data) (h2 : name ≠ []) :
    ∃ s, V17.setClientCookie name value {} now = Except.ok s ∧
      mapGet (cookieStringToMap s) name = some value := by
  refine ⟨_, setClientCookie_empty name value now, ?_⟩
  have hA : ';' ∉ encodeURIComponent name ++ '=' :: encodeURIComponent value := by
    intro hm
    rcases List.mem_append.mp hm with h | h
    · exact enc_no_semi name h
    · rcases List.mem_cons.mp h with h | h
      · exact absurd h (by decide)
      · exact enc_no_semi value h
  have hshape : encodeURIComponent name ++ '=' :: (encodeURIComponent value ++ ';' ::
      (("sameSite=Lax;").data)) =
      (encodeURIComponent name ++ '=' :: encodeURIComponent value) ++ ';' ::
        (("sameSite=Lax;").data) := by
    simp [List.append_assoc]
  have hsplit : jsSplit ';' (encodeURIComponent name ++ '=' :: (encodeURIComponent value ++ ';' ::
      (("sameSite=Lax;").data))) =
      (encodeURIComponent name ++ '=' :: encodeURIComponent value) ::
        [("sameSite=Lax").data, []] := by
    rw [hshape, jsSplit_append _ hA]
    congr 1
  rw [cookieStringToMap]
  rw [if_neg (by simp [Nat.lt_one_iff, List.length_eq_zero])]
  rw [hsplit]
  simp only [List.foldl]
  rw [parseSeg_pair [] _ _ (enc_no_eq name) (enc_no_eq value)
    (fun c hc => (enc_not_special hc).2.2)]
  rw [safeDecode_enc, safeDecode_enc]
  have hseg2 : ∀ m : CMap, parseSeg m (("sameSite=Lax").data) =
      mapSet m (("sameSite").data) (("Lax").data) := by
    intro m
    rw [parseSeg]
    congr 1
  have hseg3 : ∀ m : CMap, parseSeg m [] = mapSet m [] (("undefined").data) := by
    intro m
    rw [parseSeg]
    congr 1
  rw [hseg2, hseg3]
  rw [mapGet_set_ne _ _ (fun hh => h2 hh.symm)]
  rw [mapGet_set_ne _ _ (fun hh => h1 hh.symm)]
  exact mapGet_set_self _ _ _

/-- C9 witness: the amended statement evaluated at the pair
`("a", "b")`. -/
theorem c9_roundtrip_witness :
    ∃ s, V17.setClientCookie (("a").data) (("b").data) {} 0 = Except.ok s ∧
      mapGet (cookieStringToMap s) (("a").data) = some (("b").data) :=
  c9_roundtrip_amended (("a").data) (("b").data) 0 (by decide) (by decide)

theorem matchNameAt_self_eq (p t : Str) : matchNameAt p (p ++ '=' :: t) = tailOk t := by
  induction p with
  | nil => simp [matchNameAt]
  | cons c cs ih => simp [matchNameAt, ih]

theorem matchCapAt_self_eq (p t : Str) : matchCapAt p (p ++ '=' :: t) = captureFrom t := by
  induction p with
  | nil => simp [matchCapAt]
  | cons c cs ih => simp [matchCapAt, ih]

theorem checkClient_head_empty (n b : Str) (hb : b = [] ∨ ∃ t, b = ';' :: t) :
    V18.checkClient (encodeURIComponent n ++ '=' :: b) n = true := by
  rw [V18.checkClient, jsCookieRegexTest, matchNameAt_self_eq]
  rcases hb with rfl | ⟨t, rfl⟩
  · rfl
  · rfl

theorem getClient_head_empty (n b : Str) (hb : b = [] ∨ ∃ t, b = ';' :: t) :
    V18.getClient (encodeURIComponent n ++ '=' :: b) n = [] := by
  rw [V18.getClient, if_pos (checkClient_head_empty n b hb)]
  rw [jsCookieRegexExec, matchCapAt_self_eq]
  rcases hb with rfl | ⟨t, rfl⟩
  · rfl
  · rfl

/-- C10 counterexample: in `document.cookie = "n=7;n="` the cookie `n`
is present with an empty value in the parsed/reconciled sense (the last
occurrence wins and the string contains trailing `n=` with nothing after
it), and `check("n")` is true — but the client-side `get("n")` returns
the first regex match `"7"`, not the empty string the claim promises. -/
theorem c10_counterexample :
    mapGet (cookieStringToMap (("n=7;n=").data)) (("n").data) = some [] ∧
    V18.checkClient (("n=7;n=").data) (("n").data) = true ∧
    V18.getClient (("n=7;n=").data) (("n").data) = ("7").data ∧
    (("7").data : Str) ≠ [] := by decide

/-- C10 amended: a present-but-empty cookie makes `check` true and `get`
the empty string on the map-based paths (V17 both contexts, V18 server)
unconditionally, and on the V18 regex-based client path whenever the
empty-valued occurrence is the one the leftmost regex match finds (for
instance when the name sits at the start of the document string);
an absent cookie makes `check` false.  With duplicate occurrences the
client `get` can return the earlier, non-empty value instead. -/
theorem c10_empty_value_amended :
    (∀ (req : Option Str) (resp : Option RespVal) (n : Str),
      mapGet (getCombinedCookiesServer req resp) n = some [] →
      V17.checkServer req resp n = true ∧ V17.getServer req resp n = [] ∧
      V18.checkServer req resp n = true ∧ V18.getServer req resp n = []) ∧
    (∀ n t : Str,
      V18.checkClient (encodeURIComponent n ++ ['=']) n = true ∧
      V18.getClient (encodeURIComponent n ++ ['=']) n = [] ∧
      V18.checkClient (encodeURIComponent n ++ '=' :: ';' :: t) n = true ∧
      V18.getClient (encodeURIComponent n ++ '=' :: ';' :: t) n = []) ∧
    (∀ (req : Option Str) (resp : Option RespVal) (n : Str),
      mapHas (getCombinedCookiesServer req resp) n = false →
      V17.checkServer req resp n = false ∧ V17.getServer req resp n = []) := by
  refine ⟨?_, ?_, ?_⟩
  · intro req resp n h
    have hhas : mapHas (getCombinedCookiesServer req resp) n = true := by
      rw [mapHas, h]
      rfl
    refine ⟨hhas, ?_, hhas, ?_⟩
    · rw [V17.getServer, h]
      rfl
    · rw [V18.getServer, V18.checkServer, hhas, if_pos rfl, h]
      rfl
  · intro n t
    exact ⟨checkClient_head_empty n [] (Or.inl rfl),
      getClient_head_empty n [] (Or.inl rfl),
      checkClient_head_empty n (';' :: t) (Or.inr ⟨t, rfl⟩),
      getClient_head_empty n (';' :: t) (Or.inr ⟨t, rfl⟩)⟩
  · intro req resp n h
    refine ⟨h, ?_⟩
    rw [V17.getServer]
    rw [mapHas] at h
    rcases hg : mapGet (getCombinedCookiesServer req resp) n with _ | v
    · rfl
    · rw [hg] at h
      exact absurd h (by simp)

/-- C10 witness: the amended statement's server part evaluated at
request header `n=`. -/
theorem c10_empty_value_witness :
    V17.checkServer (some (("n=").data)) none (("n").data) = true ∧
    V17.getServer (some (("n=").data)) none (("n").data) = [] ∧
    V18.checkServer (some (("n=").data)) none (("n").data) = true ∧
    V18.getServer (some (("n=").data)) none (("n").data) = [] :=
  c10_empty_value_amended.1 (some (("n=").data)) none (("n").data) (by decide)

theorem unres_not_ws {c : Char} (h : unreservedURIChar c = true) : isJsWs c = false := by
  rw [unreservedURIChar] at h
  rw [isJsWs]
  simp only [Bool.or_eq_true, Bool.and_eq_true, decide_eq_true_eq] at h
  simp only [Bool.or_eq_false_iff, Bool.and_eq_false_iff, decide_eq_false_iff_not]
  omega

theorem unres_not_lineTerm {c : Char} (h : unreservedURIChar c = true) : isLineTerm c = false := by
  rw [unreservedURIChar] at h
  rw [isLineTerm]
  simp only [Bool.or_eq_true, Bool.and_eq_true, decide_eq_true_eq] at h
  simp only [Bool.or_eq_false_iff, Bool.and_eq_false_iff, decide_eq_false_iff_not]
  omega

theorem enc_unres_id {s : Str} (h : unresStr s) : encodeURIComponent s = s := by
  induction s with
  | nil => rfl
  | cons c r ih =>
    rw [encodeURIComponent, encChar, if_pos (h c (List.mem_cons_self c r)),
      ih (fun x hx => h x (List.mem_cons_of_mem _ hx))]
    rfl

theorem matchNameAt_nil (name : Str) : matchNameAt name [] = false := by
  cases name <;> rfl

theorem matchNameAt_space {name : Str} (hname : unresStr name) (s : Str) :
    matchNameAt name (' ' :: s) = false := by
  cases name with
  | nil => simp [matchNameAt]
  | cons c cs =>
    have hc : c ≠ ' ' := unres_no_space (hname c (List.mem_cons_self c cs))
    simp [matchNameAt, hc]

theorem tailOk_good {v : Str} (h : goodVal v) : tailOk v = true := by
  induction v with
  | nil => rfl
  | cons c r ih =>
    obtain ⟨h1, h2⟩ := h c (List.mem_cons_self c r)
    rw [tailOk, if_neg h1, if_neg (by simp [h2])]
    exact ih (fun x hx => h x (List.mem_cons_of_mem _ hx))

theorem tailOk_append_good {v : Str} (t : Str) (h : goodVal v) :
    tailOk (v ++ t) = tailOk t := by
  induction v with
  | nil => rfl
  | cons c r ih =>
    obtain ⟨h1, h2⟩ := h c (List.mem_cons_self c r)
    rw [List.cons_append, tailOk, if_neg h1, if_neg (by simp [h2])]
    exact ih (fun x hx => h x (List.mem_cons_of_mem _ hx))

theorem regexTestAux_no_semi {s : Str} (name : Str) (h : ';' ∉ s) :
    regexTestAux name s = false := by
  induction s with
  | nil => rfl
  | cons c r ih =>
    have hc : c ≠ ';' := fun hh => h (hh ▸ List.mem_cons_self c r)
    rw [regexTestAux, if_neg hc, ih (fun hh => h (List.mem_cons_of_mem _ hh))]
    rfl

theorem regexTestAux_append {s : Str} (name t : Str) (h : ';' ∉ s) :
    regexTestAux name (s ++ t) = regexTestAux name t := by
  induction s with
  | nil => rfl
  | cons c r ih =>
    have hc : c ≠ ';' := fun hh => h (hh ▸ List.mem_cons_self c r)
    rw [List.cons_append, regexTestAux, if_neg hc, ih (fun hh => h (List.mem_cons_of_mem _ hh))]
    rfl

theorem matchNameAt_pair {name n : Str} (t : Str) (hname : unresStr name) (hn : '=' ∉ n) :
    matchNameAt name (n ++ '=' :: t) = (decide (name = n) && tailOk t) := by
  induction n generalizing name with
  | nil =>
    cases name with
    | nil => simp [matchNameAt]
    | cons c cs =>
      have hc : c ≠ '=' := unres_no_eq (hname c (List.mem_cons_self c cs))
      simp [matchNameAt, hc]
  | cons m ms ih =>
    have hm : m ≠ '=' := fun hh => hn (hh ▸ List.mem_cons_self m ms)
    have hms : '=' ∉ ms := fun hh => hn (List.mem_cons_of_mem _ hh)
    cases name with
    | nil =>
      simp only [List.cons_append, matchNameAt]
      simp only [List.nil_eq, List.cons_ne_nil, decide_False, Bool.false_and]
      split
      · exact absurd (by assumption) hm
      · rfl
    | cons c cs =>
      have hcs : unresStr cs := fun x hx => hname x (List.mem_cons_of_mem _ hx)
      by_cases hcm : c = m
      · subst hcm
        simp [matchNameAt, ih hcs hms]
      · simp [matchNameAt, hcm]

theorem tailOk_semi (t : Str) : tailOk (';' :: t) = true := by
  rw [tailOk]
  simp

theorem afterSemi_not_ws {name : Str} {c : Char} (s : Str) (hc : isJsWs c = false) :
    afterSemi name (c :: s) = matchNameAt name (c :: s) := by
  rw [afterSemi, hc]
  simp

theorem renderDoc_cons_eq (q : Str × Str) (rest : CMap) :
    ∃ z, renderDoc (q :: rest) = q.1 ++ '=' :: z := by
  cases rest with
  | nil => exact ⟨q.2, rfl⟩
  | cons r rest2 => exact ⟨q.2 ++ ';' :: ' ' :: renderDoc (r :: rest2), rfl⟩

theorem scan_sp_render {name : Str} (hname : unresStr name) (q : Str × Str) (rest2 : CMap)
    (hq1ne : q.1 ≠ []) (hq1unres : unresStr q.1) :
    (afterSemi name (' ' :: renderDoc (q :: rest2)) ||
      regexTestAux name (' ' :: renderDoc (q :: rest2))) =
      jsCookieRegexTest name (renderDoc (q :: rest2)) := by
  obtain ⟨z, hz⟩ := renderDoc_cons_eq q rest2
  rcases hq1 : q.1 with _ | ⟨c1, n1⟩
  · exact absurd hq1 hq1ne
  · have hc1 : isJsWs c1 = false :=
      unres_not_ws (hq1unres c1 (by rw [hq1]; exact List.mem_cons_self c1 n1))
    have hzc : renderDoc (q :: rest2) = c1 :: (n1 ++ '=' :: z) := by
      rw [hz, hq1]
      rfl
    rw [afterSemi, matchNameAt_space hname, show isJsWs ' ' = true from rfl]
    simp only [Bool.false_or, if_true]
    rw [hzc, afterSemi_not_ws _ hc1]
    rw [show regexTestAux name (' ' :: c1 :: (n1 ++ '=' :: z)) =
      ((if ' ' = ';' then afterSemi name (c1 :: (n1 ++ '=' :: z)) else false) ||
        regexTestAux name (c1 :: (n1 ++ '=' :: z))) from rfl]
    rw [if_neg (by decide)]
    rw [jsCookieRegexTest]
    simp

theorem regex_render {name : Str} (hname : unresStr name) :
    ∀ l : CMap, goodPairs l →
      jsCookieRegexTest name (renderDoc l) = l.any (fun p => decide (p.1 = name)) := by
  intro l
  induction l with
  | nil =>
    intro _
    rw [show renderDoc [] = [] from rfl]
    rw [jsCookieRegexTest, matchNameAt_nil]
    rfl
  | cons p rest ih =>
    intro hl
    obtain ⟨hp1ne, hp1unres, hp2good⟩ := hl p (List.mem_cons_self p rest)
    have hrest : goodPairs rest := fun x hx => hl x (List.mem_cons_of_mem _ hx)
    have hn_eq : '=' ∉ p.1 := fun hh => unres_no_eq (hp1unres '=' hh) rfl
    have hnos : ';' ∉ p.1 ++ '=' :: p.2 := by
      intro hm
      rcases List.mem_append.mp hm with h | h
      · exact unres_no_semi (hp1unres ';' h) rfl
      · rcases List.mem_cons.mp h with h | h
        · exact absurd h (by decide)
        · exact (hp2good ';' h).1 rfl
    cases rest with
    | nil =>
      rw [show renderDoc [p] = p.1 ++ '=' :: p.2 from rfl]
      rw [jsCookieRegexTest, matchNameAt_pair _ hname hn_eq, tailOk_good hp2good,
        regexTestAux_no_semi name hnos]
      simp [List.any_cons, eq_comm]
    | cons q rest2 =>
      rw [show renderDoc (p :: q :: rest2) =
        p.1 ++ '=' :: (p.2 ++ ';' :: ' ' :: renderDoc (q :: rest2)) from rfl]
      rw [jsCookieRegexTest, matchNameAt_pair _ hname hn_eq]
      rw [tailOk_append_good _ hp2good, tailOk_semi]
      have hshape : p.1 ++ '=' :: (p.2 ++ ';' :: ' ' :: renderDoc (q :: rest2)) =
          (p.1 ++ '=' :: p.2) ++ ';' :: ' ' :: renderDoc (q :: rest2) := by
        simp [List.append_assoc]
      rw [hshape, regexTestAux_append name _ hnos]
      rw [regexTestAux, if_pos rfl]
      obtain ⟨hq1ne, hq1unres, _⟩ := hl q (List.mem_cons_of_mem _ (List.mem_cons_self q rest2))
      rw [scan_sp_render hname q rest2 hq1ne hq1unres]
      rw [ih hrest, List.any_cons]
      simp [eq_comm]

theorem dropLeadingSpaces_sp_append {sp : Str} (n : Str) (hsp : ∀ c ∈ sp, c = ' ') :
    dropLeadingSpaces (sp ++ n) = dropLeadingSpaces n := by
  induction sp with
  | nil => rfl
  | cons c r ih =>
    rw [List.cons_append, dropLeadingSpaces, List.dropWhile_cons]
    rw [if_pos (by simp [hsp c (List.mem_cons_self c r)])]
    exact ih (fun x hx => hsp x (List.mem_cons_of_mem _ hx))

theorem parseSeg_key (m : CMap) (k sp n v : Str)
    (hsp : ∀ c ∈ sp, c = ' ') (hn_unres : unresStr n) :
    mapHas (parseSeg m (sp ++ (n ++ '=' :: v))) k = (decide (n = k) || mapHas m k) := by
  have hshape : sp ++ (n ++ '=' :: v) = (sp ++ n) ++ '=' :: v := by
    simp [List.append_assoc]
  have hne : '=' ∉ sp ++ n := by
    intro hm
    rcases List.mem_append.mp hm with h | h
    · exact absurd (hsp '=' h) (by decide)
    · exact unres_no_eq (hn_unres '=' h) rfl
  rw [parseSeg, hshape, jsSplit_append v hne]
  simp only [headOrNil]
  rw [dropLeadingSpaces_sp_append n hsp,
    dropLeadingSpaces_of_head (fun c hc => unres_no_space (hn_unres c hc)),
    safeDecode_no_pct (fun hm => unres_no_pct (hn_unres '%' hm) rfl)]
  exact mapHas_set m n _ k

theorem mapHas_parse_render :
    ∀ l : CMap, goodPairs l → l ≠ [] →
    ∀ sp : Str, (∀ c ∈ sp, c = ' ') → ∀ (m : CMap) (k : Str),
      mapHas ((jsSplit ';' (sp ++ renderDoc l)).foldl parseSeg m) k =
        (mapHas m k || l.any (fun p => decide (p.1 = k))) := by
  intro l
  induction l with
  | nil => intro _ hne; exact absurd rfl hne
  | cons p rest ih =>
    intro hl _ sp hsp m k
    obtain ⟨hp1ne, hp1unres, hp2good⟩ := hl p (List.mem_cons_self p rest)
    have hrest : goodPairs rest := fun x hx => hl x (List.mem_cons_of_mem _ hx)
    have hnosemi : ';' ∉ sp ++ (p.1 ++ '=' :: p.2) := by
      intro hm
      rcases List.mem_append.mp hm with h | h
      · exact absurd (hsp ';' h) (by decide)
      · rcases List.mem_append.mp h with h | h
        · exact unres_no_semi (hp1unres ';' h) rfl
        · rcases List.mem_cons.mp h with h | h
          · exact absurd h (by decide)
          · exact (hp2good ';' h).1 rfl
    cases rest with
    | nil =>
      rw [show renderDoc [p] = p.1 ++ '=' :: p.2 from rfl]
      rw [jsSplit_no_sep hnosemi]
      rw [show ∀ s : Str, [s].foldl parseSeg m = parseSeg m s from fun s => rfl]
      rw [parseSeg_key m k sp p.1 p.2 hsp hp1unres]
      simp [Bool.or_comm, eq_comm]
    | cons q rest2 =>
      rw [show renderDoc (p :: q :: rest2) =
        p.1 ++ '=' :: (p.2 ++ ';' :: ' ' :: renderDoc (q :: rest2)) from rfl]
      have hshape : sp ++ (p.1 ++ '=' :: (p.2 ++ ';' :: ' ' :: renderDoc (q :: rest2))) =
          (sp ++ (p.1 ++ '=' :: p.2)) ++ ';' :: ([' '] ++ renderDoc (q :: rest2)) := by
        simp [List.append_assoc]
      rw [hshape, jsSplit_append _ hnosemi, List.foldl_cons]
      have hspq : ∀ c ∈ ([' '] : Str), c = ' ' := by simp
      rw [ih hrest (List.cons_ne_nil q rest2) [' '] hspq (parseSeg m (sp ++ (p.1 ++ '=' :: p.2))) k]
      have hkey : mapHas (parseSeg m (sp ++ (p.1 ++ '=' :: p.2))) k =
          (decide (p.1 = k) || mapHas m k) := parseSeg_key m k sp p.1 p.2 hsp hp1unres
      rw [hkey, List.any_cons]
      rw [Bool.or_assoc, Bool.or_left_comm]
      simp [List.any_cons]

theorem mapHas_nil (k : Str) : mapHas [] k = false := rfl

/-- C6 counterexample: for the name `%` and document string `%=1` the
regex shortcut and map containment disagree — `encodeURIComponent("%")`
is `%25`, which the regex cannot find, while the parser's silent decode
fallback keeps the raw name `%` in the map. -/
theorem c6_counterexample :
    V18.checkClient (("%=1").data) (("%").data) = false ∧
    mapHas (cookieStringToMap (("%=1").data)) (("%").data) = true := by decide

/-- C6 amended: the regex-based client `check` agrees with map
containment for names made of `encodeURIComponent`-unreserved characters
and document strings in browser normal form: `name=value` pairs joined
by `"; "`, names non-empty and unreserved, values free of `;` and line
terminators.  Outside that fragment the two sides genuinely diverge
(percent-encoded or whitespace-bearing names, `=`-less segments, values
containing line terminators). -/
theorem c6_check_equiv_amended (name : Str) (l : CMap)
    (hn : unresStr name) (hl : goodPairs l) :
    V18.checkClient (renderDoc l) name = mapHas (cookieStringToMap (renderDoc l)) name := by
  rw [V18.checkClient, enc_unres_id hn]
  cases l with
  | nil =>
    rw [show renderDoc [] = [] from rfl]
    rw [jsCookieRegexTest, matchNameAt_nil]
    rfl
  | cons p rest =>
    rw [regex_render hn _ hl]
    obtain ⟨hp1ne, hp1unres, _⟩ := hl p (List.mem_cons_self p rest)
    obtain ⟨z, hz⟩ := renderDoc_cons_eq p rest
    rcases hp1 : p.1 with _ | ⟨c1, n1⟩
    · exact absurd hp1 hp1ne
    have hzc : renderDoc (p :: rest) = c1 :: (n1 ++ '=' :: z) := by
      rw [hz, hp1]
      rfl
    rw [cookieStringToMap, if_neg (by rw [hzc]; simp)]
    have hfold := mapHas_parse_render (p :: rest) hl (List.cons_ne_nil p rest) []
      (by simp) [] name
    rw [List.nil_append] at hfold
    rw [hfold, mapHas_nil]
    simp

/-- C6 witness: the amended equivalence evaluated at name `a` and the
rendered document `a=1; b=2`. -/
theorem c6_check_equiv_witness :
    V18.checkClient (renderDoc [((("a").data), (("1").data)), ((("b").data), (("2").data))])
        (("a").data) =
      mapHas (cookieStringToMap
        (renderDoc [((("a").data), (("1").data)), ((("b").data), (("2").data))])) (("a").data) :=
  c6_check_equiv_amended (("a").data) [((("a").data), (("1").data)), ((("b").data), (("2").data))]
    (by decide) (by decide)
